import Mathlib

/-!
Verification of the stremio-torrent-bridge repository against its
natural-language specification.  Go code is shallowly embedded: pure string
helpers become Lean functions on `List Char`, machine integers become `Int`
(`int64` overflow is modelled explicitly where the code can hit it), and
I/O-performing methods become functions over explicit backend oracles that
also return the list of requests they issue.
-/

namespace Bridge

/-! ### Go string primitives (strings package subset used by the bridge) -/

/-- Model of `strings.HasPrefix`: does `s` start with `pre`? -/
def startsWithL : List Char → List Char → Bool
  | _, [] => true
  | [], _ :: _ => false
  | c :: s, p :: ps => c = p && startsWithL s ps

/-- Model of `strings.TrimPrefix` assuming the prefix is present: drop `n` leading chars. -/
def dropStartL (s : List Char) (n : Nat) : List Char := s.drop n

/-- Model of `strings.Index(s, string(c))`: index of the first occurrence of `c`, if any. -/
def idxOfCharL : List Char → Char → Option Nat
  | [], _ => none
  | c :: s, t => if c = t then some 0 else (idxOfCharL s t).map (· + 1)

/-- Model of `strings.SplitN(s, string(c), 2)` when the separator occurs: the parts before
and after the first occurrence of `c`.  `none` when `c` does not occur (the Go
call then returns a one-element slice). -/
def splitFirstL : List Char → Char → Option (List Char × List Char)
  | [], _ => none
  | c :: s, t =>
    if c = t then some ([], s)
    else (splitFirstL s t).map fun p => (c :: p.1, p.2)

/-- Model of `strings.Split(s, string(c))`: full split on every occurrence of `c`.
Structurally recursive formulation: prepend the current character to the head
part unless it is the separator, which starts a new part. -/
def splitAllL : List Char → Char → List (List Char)
  | [], _ => [[]]
  | c :: rest, t =>
    let r := splitAllL rest t
    if c = t then [] :: r
    else
      match r with
      | [] => [[c]]
      | h :: tl => (c :: h) :: tl

/-- Whitespace bytes recognised by Go's `unicode.IsSpace` that can occur in a
header value (`\t \n \v \f \r`, space, NEL, NBSP). -/
def isGoSpace (c : Char) : Bool :=
  c = ' ' || c = Char.ofNat 9 || c = Char.ofNat 10 || c = Char.ofNat 11 ||
  c = Char.ofNat 12 || c = Char.ofNat 13 || c = Char.ofNat 133 || c = Char.ofNat 160

/-- Model of `strings.TrimSpace`. -/
def trimSpaceL (s : List Char) : List Char :=
  ((s.dropWhile isGoSpace).reverse.dropWhile isGoSpace).reverse

/-- ASCII lower-casing of a single character, as `strings.ToLower` acts on
ASCII input (all inputs relevant here are ASCII). -/
def lowerChar (c : Char) : Char :=
  if 'A' ≤ c ∧ c ≤ 'Z' then Char.ofNat (c.toNat + 32) else c

/-- Model of `strings.ToLower` on ASCII input. -/
def lowerL (s : List Char) : List Char := s.map lowerChar

/-! ### Decimal integers: `strconv.ParseInt(s, 10, 64)` and `strconv.Itoa` -/

/-- Is `c` an ASCII decimal digit? -/
def isDigitChar (c : Char) : Bool := '0' ≤ c ∧ c ≤ '9'

/-- Left-to-right accumulation of a digit run; `none` on a non-digit. -/
def parseDigitsAcc : List Char → Nat → Option Nat
  | [], acc => some acc
  | c :: cs, acc =>
    if isDigitChar c then parseDigitsAcc cs (acc * 10 + (c.toNat - 48)) else none

/-- Largest `int64` value. -/
def maxInt64 : Int := 2 ^ 63 - 1

/-- Model of `strconv.ParseInt(s, 10, 64)`: optional sign, at least one digit, only
digits, and the value must fit in `int64` (Go reports `ErrRange` otherwise and
every caller in the bridge treats any error the same way). -/
def goParseInt64 (s : List Char) : Option Int :=
  let signed : Bool × List Char :=
    match s with
    | [] => (false, [])
    | c :: rest =>
      if c = '+' then (false, rest)
      else if c = '-' then (true, rest)
      else (false, c :: rest)
  let neg := signed.1
  let digits := signed.2
  if digits.isEmpty then none
  else
    match parseDigitsAcc digits 0 with
    | none => none
    | some v =>
      let value : Int := if neg then -(v : Int) else (v : Int)
      if value < -(2 ^ 63) ∨ maxInt64 < value then none else some value

/-- ASCII digit character for `n < 10`. -/
def digitChar (n : Nat) : Char := Char.ofNat (48 + n)

/-- Fuelled digit rendering; the fuel only bounds the recursion depth and
`natDigits` always supplies enough. -/
def natDigitsAux : Nat → Nat → List Char
  | 0, _ => []
  | fuel + 1, n =>
    if n < 10 then [digitChar n]
    else natDigitsAux fuel (n / 10) ++ [digitChar (n % 10)]

/-- Decimal rendering of a natural number, matching `strconv.Itoa` /
`strconv.FormatInt` for non-negative values. -/
def natDigits (n : Nat) : List Char := natDigitsAux (n + 1) n

instance {ε α : Type} [DecidableEq ε] [DecidableEq α] : DecidableEq (Except ε α) := by
  intro a b
  cases a <;> cases b
  case error.error e f => exact if h : e = f then .isTrue (by rw [h]) else .isFalse (by simp [h])
  case error.ok e x => exact .isFalse (by simp)
  case ok.error x e => exact .isFalse (by simp)
  case ok.ok x y => exact if h : x = y then .isTrue (by rw [h]) else .isFalse (by simp [h])

/-! ### `parseRangeHeader` (internal/engine/qbittorrent.go) -/

/-- The distinct failure kinds of `parseRangeHeader`, one per `fmt.Errorf`
site in the source. -/
inductive RangeErr where
  | unsupportedFormat
  | invalidFormat
  | invalidSuffix
  | invalidStart
  | invalidEnd
  | notSatisfiable
  deriving DecidableEq, Repr

/-- The tail of `parseRangeHeader`: the satisfiability check followed by the
end clamp, exactly as in the source. -/
def finishRange (start e totalSize : Int) : Except RangeErr (Int × Int) :=
  if start > e ∨ start ≥ totalSize then .error .notSatisfiable
  else if e ≥ totalSize then .ok (start, totalSize - 1)
  else .ok (start, e)

/-- Model of `Handle multiple ranges by only using the first one` in the source: cut
`rangeSpec` at the first comma, if any. -/
def cutComma (s : List Char) : List Char :=
  match idxOfCharL s ',' with
  | some idx => s.take idx
  | none => s

/-- The body of `parseRangeHeader` after the `bytes=` prefix and the comma cut:
split at the first `-`, trim, parse, then the suffix / open-ended / bounded
cases ending in `finishRange`. -/
def parseRangeBody (rangeSpec : List Char) (totalSize : Int) :
    Except RangeErr (Int × Int) :=
  match splitFirstL rangeSpec '-' with
  | none => .error .invalidFormat
  | some (p0, p1) =>
    let startStr := trimSpaceL p0
    let endStr := trimSpaceL p1
    if startStr.isEmpty then
      match goParseInt64 endStr with
      | none => .error .invalidSuffix
      | some suffixLen =>
        let start := totalSize - suffixLen
        let start := if start < 0 then 0 else start
        finishRange start (totalSize - 1) totalSize
    else
      match goParseInt64 startStr with
      | none => .error .invalidStart
      | some start =>
        if endStr.isEmpty then finishRange start (totalSize - 1) totalSize
        else
          match goParseInt64 endStr with
          | none => .error .invalidEnd
          | some e => finishRange start e totalSize

/-- Model of `parseRangeHeader` from internal/engine/qbittorrent.go, on the character
list of the header value.  Mirrors the source line by line: `bytes=` prefix
check, prefix strip, comma cut, then `parseRangeBody`. -/
def parseRangeHeaderL (rangeHeader : List Char) (totalSize : Int) :
    Except RangeErr (Int × Int) :=
  if ¬ startsWithL rangeHeader "bytes=".data then .error .unsupportedFormat
  else parseRangeBody (cutComma (dropStartL rangeHeader 6)) totalSize

/-- Model of `parseRangeHeader` on a Lean `String`. -/
def parseRangeHeader (rangeHeader : String) (totalSize : Int) :
    Except RangeErr (Int × Int) :=
  parseRangeHeaderL rangeHeader.data totalSize

/-! ### `ParseInfoHashFromMagnet` (internal/engine/engine.go)

The Go function runs `url.Parse` and reads `u.Query().Get("xt")`.  We embed
the query pipeline of net/url for the inputs on which `url.Parse` succeeds
(every input considered below: none contains control characters, so
`url.Parse` never errors on them): the raw query is the part of the URI after
the first `?` (with any `#`-fragment stripped first), and `ParseQuery` splits
it on `&`, skips empty segments, segments containing `;`, and segments that
fail percent-decoding, cutting each at the first `=`. -/

/-- Is `c` an ASCII hexadecimal digit? -/
def isHexDigitChar (c : Char) : Bool :=
  ('0' ≤ c ∧ c ≤ '9') ∨ ('a' ≤ c ∧ c ≤ 'f') ∨ ('A' ≤ c ∧ c ≤ 'F')

/-- Value of a hexadecimal digit. -/
def hexVal (c : Char) : Nat :=
  if '0' ≤ c ∧ c ≤ '9' then c.toNat - 48
  else if 'a' ≤ c ∧ c ≤ 'f' then c.toNat - 87
  else c.toNat - 55

/-- Model of `net/url.QueryUnescape` on ASCII input: `+` decodes to space, `%XY`
decodes to the byte `XY`, and a malformed escape is an error. -/
def queryUnescape : List Char → Option (List Char)
  | [] => some []
  | c :: rest =>
    if c = '%' then
      match rest with
      | a :: b :: rest2 =>
        if isHexDigitChar a && isHexDigitChar b then
          (queryUnescape rest2).map (Char.ofNat (16 * hexVal a + hexVal b) :: ·)
        else none
      | _ => none
    else if c = '+' then (queryUnescape rest).map (' ' :: ·)
    else (queryUnescape rest).map (c :: ·)

/-- The `RawQuery` component that `url.Parse` assigns: strip the fragment at
the first `#`, then take everything after the first `?` (empty if none). -/
def rawQuery (s : List Char) : List Char :=
  let noFrag :=
    match idxOfCharL s '#' with
    | some i => s.take i
    | none => s
  match idxOfCharL noFrag '?' with
  | some i => noFrag.drop (i + 1)
  | none => []

/-- Model of `net/url.ParseQuery` as used by `Values.Get`: the ordered key/value pairs,
with invalid segments skipped (Go's `Query()` ignores the error and keeps the
valid pairs). -/
def parseQueryPairs (q : List Char) : List (List Char × List Char) :=
  (splitAllL q '&').filterMap fun seg =>
    if seg.isEmpty then none
    else if seg.contains ';' then none
    else
      let kv :=
        match splitFirstL seg '=' with
        | some (k, v) => (k, v)
        | none => (seg, [])
      match queryUnescape kv.1, queryUnescape kv.2 with
      | some k2, some v2 => some (k2, v2)
      | _, _ => none

/-- Model of `u.Query().Get(key)`: the first value stored for `key`, `""` if absent. -/
def queryGet (uri key : List Char) : List Char :=
  match (parseQueryPairs (rawQuery uri)).find? (fun p => p.1 = key) with
  | some p => p.2
  | none => []

/-- Model of `ParseInfoHashFromMagnet` from internal/engine/engine.go: read the `xt`
query parameter, require `urn:btih:HASH` (at least three `:`-separated parts
with a case-insensitive `btih` tag), and return the lower-cased third part.
Note the function never inspects the URI scheme. -/
def ParseInfoHashFromMagnet (uri : String) : String :=
  let xt := queryGet uri.data "xt".data
  if xt.isEmpty then ""
  else
    let parts := splitAllL xt ':'
    if parts.length < 3 then ""
    else if lowerL (parts.getD 1 []) ≠ "btih".data then ""
    else ⟨lowerL (parts.getD 2 [])⟩

/-- Characters that pass through the query pipeline untouched: not a pair or
key/value separator, not an escape or space character, not a fragment start. -/
def cleanQueryChar (c : Char) : Bool :=
  c ≠ '&' ∧ c ≠ '=' ∧ c ≠ '%' ∧ c ≠ '+' ∧ c ≠ ';' ∧ c ≠ '#'

/-! ### The piece-aware reader (internal/engine/qbittorrent.go)

`pieceAwareReader` wraps the opened file.  Its mutable state across `Read`
calls is the file position `pos`, the constants `fileOffset`/`pieceSize`, and
`lastPieceOK`, the highest piece index confirmed downloaded.  Each `Read`
computes the piece index of the current byte; if it exceeds `lastPieceOK` it
polls the piece-states endpoint (`fetchPieceStates`) until that piece reports
state 2, then scans forward over the contiguous run of state-2 pieces.  We
model one `Read` as a function of the reader state, the list of successive
piece-state responses the endpoint would give (`none` = fetch error; an
exhausted list = the context was cancelled during the wait), and the byte
count `n` the inner reader then returns. -/

structure PieceAwareReader where
  pos : Nat
  fileOffset : Nat
  pieceSize : Nat
  lastPieceOK : Int
  deriving Repr, DecidableEq

/-- Model of `pieceIdx := int(torrentPos / r.pieceSize)` with `torrentPos =
r.fileOffset + r.pos`. -/
def pieceIdxOf (r : PieceAwareReader) : Nat := (r.fileOffset + r.pos) / r.pieceSize

/-- The forward scan in `waitForPiece`: starting from the confirmed
`pieceIdx`, advance `lastPieceOK` over the contiguous run of pieces with
state 2.  `fuel` only bounds the loop; `states.length` always suffices. -/
def scanFwd (states : List Int) (i : Nat) : Nat → Nat
  | 0 => i
  | fuel + 1 =>
    if i + 1 < states.length ∧ states.getD (i + 1) 0 = 2 then scanFwd states (i + 1) fuel
    else i

/-- Model of `waitForPiece`: poll the piece-states endpoint until `states[pieceIdx] ==
2`; a `none` response is a fetch error (retried after 300 ms), and running out
of responses models the context being cancelled.  On success returns the new
`lastPieceOK` and the number of fetches made. -/
def waitForPiece (pieceIdx : Nat) : List (Option (List Int)) → Option (Int × Nat)
  | [] => none
  | poll :: rest =>
    match poll with
    | none => (waitForPiece pieceIdx rest).map fun p => (p.1, p.2 + 1)
    | some states =>
      if pieceIdx < states.length ∧ states.getD pieceIdx 0 = 2 then
        some ((scanFwd states pieceIdx states.length : Nat), 1)
      else (waitForPiece pieceIdx rest).map fun p => (p.1, p.2 + 1)

/-- Result of one `Read` call: the new reader state, the byte count returned
(`none` = the wait was cancelled and the read failed), and how many times the
piece-states endpoint was consulted. -/
structure ReadOutcome where
  reader : PieceAwareReader
  bytes : Option Nat
  fetches : Nat
  deriving Repr, DecidableEq

/-- Model of `pieceAwareReader.Read`: fast path when `pieceIdx ≤ lastPieceOK`
(delegate to the inner reader, no piece-state fetch), slow path otherwise
(wait for the piece, then read). -/
def pieceAwareRead (r : PieceAwareReader) (polls : List (Option (List Int))) (n : Nat) :
    ReadOutcome :=
  let pieceIdx := pieceIdxOf r
  if (pieceIdx : Int) > r.lastPieceOK then
    match waitForPiece pieceIdx polls with
    | none => ⟨r, none, polls.length⟩
    | some (newLast, f) => ⟨{ r with lastPieceOK := newLast, pos := r.pos + n }, some n, f⟩
  else ⟨{ r with pos := r.pos + n }, some n, 0⟩

/-- A sequence of `Read` calls, each with its own poll responses and inner
byte count. -/
def readTrace (r : PieceAwareReader) : List (List (Option (List Int)) × Nat) → PieceAwareReader
  | [] => r
  | (polls, n) :: rest => readTrace (pieceAwareRead r polls n).reader rest

/-! ### The engine data model (internal/engine/engine.go) and the three
adapters' `AddTorrent` (qbittorrent.go, rqbit.go, torrserver.go)

Each adapter's `AddTorrent` performs HTTP calls against its backend.  We model
the backend as an oracle (a function from request to response) and return,
alongside the result, the ordered list of requests the call issued, so that
"no add request is sent" is a statement about that list.  HTTP transport
failures of the read-only endpoints are not modelled (they abort the call
with an error before any add is issued). -/

/-- Model of `strings.ToLower` on a `String` (ASCII input). -/
def lowerS (s : String) : String := ⟨lowerL s.data⟩

/-- Model of `strconv.Itoa` (rqbit's numeric IDs are Go `int`s). -/
def intRepr (n : Int) : String :=
  if n < 0 then ⟨'-' :: natDigits (-n).toNat⟩ else ⟨natDigits n.toNat⟩

/-- Model of `TorrentStats` (speeds are float64 in Go, fed only from integer fields of
the backend responses, so `Int` preserves them exactly). -/
structure TorrentStats where
  downloadSpeed : Int
  uploadSpeed : Int
  activePeers : Int
  totalPeers : Int
  connectedSeeders : Int
  deriving Repr, DecidableEq

structure TorrentFile where
  index : Int
  path : String
  size : Int
  deriving Repr, DecidableEq

structure TorrentInfo where
  infoHash : String
  name : String
  files : List TorrentFile
  engineID : String
  totalSize : Int
  stats : Option TorrentStats
  deriving Repr, DecidableEq

/-! #### qBittorrent adapter -/

/-- The fields of `qbitTorrentInfo` that `AddTorrent`/`GetTorrent` read. -/
structure QbitTorrentInfo where
  hash : String
  name : String
  size : Int
  numComplete : Int
  numIncomplete : Int
  numSeeds : Int
  numLeechs : Int
  dlspeed : Int
  upspeed : Int
  deriving Repr, DecidableEq

structure QbitFileInfo where
  index : Int
  name : String
  size : Int
  deriving Repr, DecidableEq

/-- Model of `torrentInfoFromQBittorrent`. -/
def torrentInfoFromQBittorrent (t : QbitTorrentInfo) (files : List QbitFileInfo) :
    TorrentInfo :=
  let torrentFiles := files.map fun f => TorrentFile.mk f.index f.name f.size
  let totalSize := if t.size = 0 then (files.map (·.size)).sum else t.size
  let stats :=
    if t.numSeeds > 0 ∨ t.numLeechs > 0 ∨ t.dlspeed > 0 ∨ t.numComplete > 0 then
      some (TorrentStats.mk t.dlspeed t.upspeed (t.numSeeds + t.numLeechs)
        (t.numComplete + t.numIncomplete) t.numSeeds)
    else none
  { infoHash := lowerS t.hash
    name := t.name
    files := torrentFiles
    engineID := lowerS t.hash
    totalSize := totalSize
    stats := stats }

/-- The qBittorrent API requests `AddTorrent` can issue. -/
inductive QbitReq where
  | info (hash : String)
  | filesReq (hash : String)
  | add (magnet : String)
  deriving Repr, DecidableEq

/-- A snapshot of the qBittorrent backend: the `/torrents/info?hashes=h` and
`/torrents/files?hash=h` responses. -/
structure QbitView where
  torrents : String → List QbitTorrentInfo
  filesOf : String → List QbitFileInfo

/-- Model of `QBittorrentAdapter.GetTorrent` against one backend snapshot: returns the
converted first torrent (with its file list) or `none`, plus the requests
issued. -/
def qbGetTorrent (v : QbitView) (infoHash : String) :
    Option TorrentInfo × List QbitReq :=
  let hash := lowerS infoHash
  match v.torrents hash with
  | [] => (none, [QbitReq.info hash])
  | t :: _ =>
    (some (torrentInfoFromQBittorrent t (v.filesOf hash)),
      [QbitReq.info hash, QbitReq.filesReq hash])

/-- The qBittorrent world seen by one `AddTorrent` call: the current snapshot,
whether the add submission succeeds, and the snapshots the 1-second metadata
poll loop sees after the add (the 30-second deadline is the end of the
list). -/
structure QbitWorld where
  now : QbitView
  addOk : String → Bool
  afterAdd : String → List QbitView

/-- The metadata poll loop of `AddTorrent`: repeat `GetTorrent` until name and
file list are populated; keep the last (possibly incomplete) result for the
post-deadline fallback. -/
def qbPollLoop (hash : String) :
    List QbitView → Option TorrentInfo → Option TorrentInfo × List QbitReq
  | [], last => (last, [])
  | v :: rest, _ =>
    match qbGetTorrent v hash with
    | (some i, reqs) =>
      if i.name ≠ "" ∧ i.files ≠ [] then (some i, reqs)
      else
        let (r, rs) := qbPollLoop hash rest (some i)
        (r, reqs ++ rs)
    | (none, reqs) =>
      let (r, rs) := qbPollLoop hash rest none
      (r, reqs ++ rs)

/-- Model of `QBittorrentAdapter.AddTorrent`: parse the hash, check for an existing
torrent (idempotency), otherwise submit the add and poll for metadata. -/
def qbAddTorrent (w : QbitWorld) (magnetURI : String) :
    Except String (TorrentInfo × List QbitReq) :=
  let infoHash := ParseInfoHashFromMagnet magnetURI
  if infoHash = "" then .error "could not parse info hash from magnet URI"
  else
    match qbGetTorrent w.now infoHash with
    | (some existing, reqs) => .ok (existing, reqs)
    | (none, reqs) =>
      if w.addOk magnetURI = false then .error "add failed"
      else
        match qbPollLoop infoHash (w.afterAdd magnetURI) none with
        | (some info, rs) => .ok (info, reqs ++ QbitReq.add magnetURI :: rs)
        | (none, _) => .error "timeout waiting for torrent metadata"

/-! #### rqbit adapter -/

/-- A file entry of the rqbit add/detail responses (the `included` flag is
never read by the adapter). -/
structure RqbitFile where
  name : String
  length : Int
  deriving Repr, DecidableEq

/-- Model of `rqbitAddDetails`. -/
structure RqbitAddDetails where
  info_hash : String
  name : String
  files : List RqbitFile
  deriving Repr, DecidableEq

/-- Model of `rqbitAddResponse`. -/
structure RqbitAddResponse where
  id : Int
  details : Option RqbitAddDetails
  deriving Repr, DecidableEq

/-- Model of `rqbitTorrentDetail` (the raw `stats` field is never read). -/
structure RqbitTorrentDetail where
  info_hash : String
  name : String
  files : List RqbitFile
  deriving Repr, DecidableEq

/-- The adapter's bidirectional infoHash ↔ numeric-ID map.  Go map writes
overwrite; we model them by prepending, with lookups taking the first hit. -/
structure RqbitState where
  hashToID : List (String × Int)
  idToHash : List (Int × String)
  deriving Repr, DecidableEq

def lookupHash (m : List (String × Int)) (h : String) : Option Int :=
  (m.find? fun p => p.1 = h).map (·.2)

def rqbitInsert (st : RqbitState) (h : String) (id : Int) : RqbitState :=
  { hashToID := (h, id) :: st.hashToID, idToHash := (id, h) :: st.idToHash }

/-- The rqbit API requests `AddTorrent` can issue. -/
inductive RqbitReq where
  | add (magnet : String)
  | getTorrent (id : Int)
  deriving Repr, DecidableEq

/-- The rqbit backend oracle: `POST /torrents?overwrite=true` and
`GET /torrents/{id}` responses (`none` = transport/parse/status failure). -/
structure RqbitWorld where
  addResp : String → Option RqbitAddResponse
  getResp : Int → Option RqbitTorrentDetail

/-- Index files `0, 1, …` as the adapter's conversion loops do. -/
def idxFiles : Nat → List RqbitFile → List TorrentFile
  | _, [] => []
  | i, f :: fs => TorrentFile.mk i f.name f.length :: idxFiles (i + 1) fs

/-- Model of `RqbitAdapter.getTorrentByID`: fetch the detail, determine the hash
(falling back to `knownHash`), update the map, and build the info. -/
def rqbitGetTorrentByID (w : RqbitWorld) (st : RqbitState) (id : Int) (knownHash : String) :
    Except String (TorrentInfo × RqbitState) × List RqbitReq :=
  match w.getResp id with
  | none => (.error "get torrent failed", [RqbitReq.getTorrent id])
  | some detail =>
    let h0 := lowerS detail.info_hash
    let hash := if h0 = "" then knownHash else h0
    let st' := if hash ≠ "" then rqbitInsert st hash id else st
    let files := idxFiles 0 detail.files
    let totalSize := (files.map (·.size)).sum
    (.ok ({ infoHash := hash, name := detail.name, files := files,
            engineID := intRepr id, totalSize := totalSize, stats := none }, st'),
      [RqbitReq.getTorrent id])

/-- The tail of `RqbitAdapter.AddTorrent` when the add response lacks full
details: store the mapping (when the hash is known), fetch via
`getTorrentByID`, and backfill the mapping if the hash was only learned
there. -/
def rqbitAddFetchDetails (w : RqbitWorld) (st : RqbitState) (ar : RqbitAddResponse)
    (respHash magnetURI : String) :
    Except String (TorrentInfo × RqbitState) × List RqbitReq :=
  let st1 := if respHash ≠ "" then rqbitInsert st respHash ar.id else st
  match rqbitGetTorrentByID w st1 ar.id respHash with
  | (.error e, reqs) => (.error ("get details: " ++ e), RqbitReq.add magnetURI :: reqs)
  | (.ok (info, st2), reqs) =>
    let st3 :=
      if respHash = "" ∧ info.infoHash ≠ "" then rqbitInsert st2 info.infoHash ar.id
      else st2
    (.ok (info, st3), RqbitReq.add magnetURI :: reqs)

/-- Model of `RqbitAdapter.AddTorrent`: map hit → return the current info via
`getTorrentByID` with no add request; map miss → POST the magnet and build the
info from the response (or fetch the details by ID). -/
def rqbitAddTorrent (w : RqbitWorld) (st : RqbitState) (magnetURI : String) :
    Except String (TorrentInfo × RqbitState) × List RqbitReq :=
  let infoHash := ParseInfoHashFromMagnet magnetURI
  match (if infoHash = "" then none else lookupHash st.hashToID infoHash) with
  | some id => rqbitGetTorrentByID w st id infoHash
  | none =>
    match w.addResp magnetURI with
    | none => (.error "add failed", [RqbitReq.add magnetURI])
    | some ar =>
      let respHash :=
        match ar.details with
        | some d => if d.info_hash ≠ "" then lowerS d.info_hash else infoHash
        | none => infoHash
      match ar.details with
      | some d =>
        if respHash ≠ "" ∧ d.name ≠ "" then
          (.ok ({ infoHash := respHash, name := d.name, files := idxFiles 0 d.files,
                  engineID := intRepr ar.id, totalSize := 0, stats := none },
              rqbitInsert st respHash ar.id),
            [RqbitReq.add magnetURI])
        else rqbitAddFetchDetails w st ar respHash magnetURI
      | none => rqbitAddFetchDetails w st ar respHash magnetURI

/-! #### rqbit `ListTorrents` body parsing (the three JSON shapes)

`RqbitAdapter.ListTorrents` tries, in order: `[]rqbitTorrentDetail`, a wrapper
struct `{torrents: []rqbitTorrentDetail}`, and `map[string]rqbitTorrentDetail`.
We embed Go's `encoding/json` semantics for exactly these target types:
unknown object fields are ignored, missing fields keep their zero value,
`null` is a no-op, and a type mismatch is an error.  Duplicate object keys
(absent from all inputs here) are resolved last-wins, as the streaming decoder
does. -/

inductive Json where
  | null
  | bool (b : Bool)
  | num (n : Int)
  | str (s : String)
  | arr (xs : List Json)
  | obj (fields : List (String × Json))

/-- Last-wins field lookup. -/
def jLookup (fields : List (String × Json)) (k : String) : Option Json :=
  (fields.reverse.find? fun p => p.1 = k).map (·.2)

/-- Decode into a Go `string` field. -/
def decodeString : Json → Option String
  | .str s => some s
  | .null => some ""
  | _ => none

/-- Decode into a Go `int64` field. -/
def decodeInt : Json → Option Int
  | .num n => some n
  | .null => some 0
  | _ => none

/-- Decode one object field, using the zero value when absent. -/
def decodeField (fields : List (String × Json)) (k : String)
    (dec : Json → Option α) (zero : α) : Option α :=
  match jLookup fields k with
  | none => some zero
  | some j => dec j

/-- Decode into a Go slice. -/
def decodeList (dec : Json → Option α) : Json → Option (List α)
  | .arr xs => xs.mapM dec
  | .null => some []
  | _ => none

/-- Decode `rqbitFileInfo` (the `included` field is never read). -/
def decodeRqbitFile : Json → Option RqbitFile
  | .obj fs => do
    let name ← decodeField fs "name" decodeString ""
    let length ← decodeField fs "length" decodeInt 0
    some ⟨name, length⟩
  | .null => some ⟨"", 0⟩
  | _ => none

/-- Decode `rqbitTorrentDetail`. -/
def decodeRqbitDetail : Json → Option RqbitTorrentDetail
  | .obj fs => do
    let ih ← decodeField fs "info_hash" decodeString ""
    let nm ← decodeField fs "name" decodeString ""
    let fl ← decodeField fs "files" (decodeList decodeRqbitFile) []
    some ⟨ih, nm, fl⟩
  | .null => some ⟨"", "", []⟩
  | _ => none

/-- Decode the wrapper struct `{Torrents []rqbitTorrentDetail
\x60json:"torrents"\x60}`.  Crucially, ANY JSON object decodes successfully:
unknown keys are ignored and a missing `torrents` key leaves the zero (nil)
slice. -/
def decodeListWrapper : Json → Option (List RqbitTorrentDetail)
  | .obj fs =>
    match jLookup fs "torrents" with
    | none => some []
    | some j => decodeList decodeRqbitDetail j
  | .null => some []
  | _ => none

/-- Decode `map[string]rqbitTorrentDetail` as an association list (Go map
iteration order is unspecified; we keep field order). -/
def decodeIdMap : Json → Option (List (String × RqbitTorrentDetail))
  | .obj fs => fs.mapM fun kv => (decodeRqbitDetail kv.2).map fun d => (kv.1, d)
  | .null => some []
  | _ => none

/-- Model of `strconv.Atoi`. -/
def goAtoi (s : String) : Option Int := goParseInt64 s.data

/-- The shared mapping-rebuild loop of `ListTorrents` (shapes 1 and 2): the
numeric ID of the i-th listed torrent is its index `i`. -/
def refreshFromList : RqbitState → Int → List RqbitTorrentDetail → RqbitState
  | st, _, [] => st
  | st, i, t :: rest =>
    let hash := lowerS t.info_hash
    let st' := if hash ≠ "" then rqbitInsert st hash i else st
    refreshFromList st' (i + 1) rest

/-- The mapping-rebuild loop of the numeric-ID-map branch (shape 3): parse the
key as the ID, skip unparseable keys (their torrents are not appended). -/
def refreshFromMap : RqbitState → List (String × RqbitTorrentDetail) →
    List RqbitTorrentDetail × RqbitState
  | st, [] => ([], st)
  | st, (idStr, t) :: rest =>
    match goAtoi idStr with
    | none => refreshFromMap st rest
    | some numID =>
      let hash := lowerS t.info_hash
      let st' := if hash ≠ "" then rqbitInsert st hash numID else st
      let (ts, st'') := refreshFromMap st' rest
      (t :: ts, st'')

/-- The body-processing of `RqbitAdapter.ListTorrents` on the decoded JSON:
three decode attempts in order, each successful branch refreshing the
infoHash ↔ numeric-ID map. -/
def rqbitDecodeListBody (st : RqbitState) (j : Json) :
    Except String (List RqbitTorrentDetail × RqbitState) :=
  match decodeList decodeRqbitDetail j with
  | some torrents => .ok (torrents, refreshFromList st 0 torrents)
  | none =>
    match decodeListWrapper j with
    | some torrents => .ok (torrents, refreshFromList st 0 torrents)
    | none =>
      match decodeIdMap j with
      | some idMap =>
        let (torrents, st') := refreshFromMap st idMap
        .ok (torrents, st')
      | none => .error "rqbit list torrents: parse response"

/-- Model of `torrentDetailsToInfoSlice`: convert the listed details, reading each
engine ID back out of the (already refreshed) map. -/
def torrentDetailsToInfoSlice (st : RqbitState) (details : List RqbitTorrentDetail) :
    List TorrentInfo :=
  details.map fun d =>
    let hash := lowerS d.info_hash
    let files := idxFiles 0 d.files
    let engineID :=
      match lookupHash st.hashToID hash with
      | some id => intRepr id
      | none => ""
    { infoHash := hash, name := d.name, files := files, engineID := engineID,
      totalSize := (files.map (·.size)).sum, stats := none }

/-- Model of `RqbitAdapter.ListTorrents` after a successful HTTP fetch whose body
decoded to `j`. -/
def rqbitListTorrents (st : RqbitState) (j : Json) :
    Except String (List TorrentInfo × RqbitState) :=
  match rqbitDecodeListBody st j with
  | .error e => .error e
  | .ok (details, st') => .ok (torrentDetailsToInfoSlice st' details, st')

/-! #### TorrServer adapter -/

structure TorrServerFileStat where
  id : Int
  path : String
  length : Int
  deriving Repr, DecidableEq

structure TorrServerTorrent where
  hash : String
  name : String
  file_stat : List TorrServerFileStat
  deriving Repr, DecidableEq

/-- A request to the TorrServer `/torrents` endpoint: the JSON body fields. -/
structure TsReq where
  action : String
  link : String
  hash : String
  deriving Repr, DecidableEq

/-- The TorrServer backend oracle: the response to `{action: "add", link:
magnet}` (`none` = transport/status/parse failure). -/
structure TorrServerWorld where
  addResp : String → Option TorrServerTorrent

/-- Model of `torrentInfoFromTorrServer`. -/
def torrentInfoFromTorrServer (ts : TorrServerTorrent) : TorrentInfo :=
  { infoHash := lowerS ts.hash
    name := ts.name
    files := ts.file_stat.map fun f => TorrentFile.mk f.id f.path f.length
    engineID := lowerS ts.hash
    totalSize := 0
    stats := none }

/-- Model of `TorrServerAdapter.AddTorrent`: unconditionally POST the `add` action and
convert the response — there is no presence check in this adapter. -/
def tsAddTorrent (w : TorrServerWorld) (magnetURI : String) :
    Except String TorrentInfo × List TsReq :=
  match w.addResp magnetURI with
  | none => (.error "add failed", [TsReq.mk "add" magnetURI ""])
  | some ts => (.ok (torrentInfoFromTorrServer ts), [TsReq.mk "add" magnetURI ""])

/-! ### The cache manager's `RunCleanup` (internal/cache/manager.go)

`RunCleanup` snapshots the access log, sorts it oldest-first by
`lastAccessed`, marks entries older than `now − maxAgeDays` for removal, then
greedily evicts the oldest survivors until the total size fits under
`CacheSizeGB`.  We model access times as Unix seconds (`Int`) and the
all-removals-succeed case of the claim, in which the final log is exactly the
kept entries. -/

structure AccessEntry where
  infoHash : String
  name : String
  lastAccessed : Int
  size : Int
  deriving Repr, DecidableEq

/-- The comparator of the `sort.Slice` call: oldest `lastAccessed` first. -/
def accessLE (a b : AccessEntry) : Prop := a.lastAccessed ≤ b.lastAccessed

instance : DecidableRel accessLE := fun a b => Int.decLe a.lastAccessed b.lastAccessed

instance : IsTotal AccessEntry accessLE :=
  ⟨fun a b => Int.le_total a.lastAccessed b.lastAccessed⟩

instance : IsTrans AccessEntry accessLE :=
  ⟨fun _ _ _ hab hbc => le_trans hab hbc⟩

/-- The oldest-first sort of the snapshot. -/
def sortByAccess (l : List AccessEntry) : List AccessEntry := List.insertionSort accessLE l

def sumSize (l : List AccessEntry) : Int := (l.map (·.size)).sum

/-- The greedy size-eviction loop: how many entries are removed from the
front of the (oldest-first) survivor list before the running total fits. -/
def evictCount : List AccessEntry → Int → Int → Nat
  | [], _, _ => 0
  | e :: rest, total, maxB =>
    if total > maxB then evictCount rest (total - e.size) maxB + 1 else 0

structure CleanupResult where
  ageEvicted : List AccessEntry
  sizeEvicted : List AccessEntry
  kept : List AccessEntry
  deriving Repr, DecidableEq

/-- Model of `CacheManager.RunCleanup` with every engine removal succeeding. -/
def RunCleanup (log : List AccessEntry) (now : Int) (maxAgeDays maxSizeGB : Nat) :
    CleanupResult :=
  let entries := sortByAccess log
  let cutoff := now - (maxAgeDays : Int) * 24 * 3600
  let maxBytes := (maxSizeGB : Int) * 1024 * 1024 * 1024
  let toRemoveAge := entries.filter fun e => e.lastAccessed < cutoff
  let remaining := entries.filter fun e => ¬ (e.lastAccessed < cutoff)
  let k := evictCount remaining (sumSize remaining) maxBytes
  { ageEvicted := toRemoveAge, sizeEvicted := remaining.take k, kept := remaining.drop k }

/-! ### The stream proxy's header forwarding (internal/proxy/stream.go)

On engine success, `HandleStream` sets the client status from the engine's
`StatusCode` and copies every response header whose canonical key is not in
`hopByHopHeaders`, calling `c.Set(key, v)` for each value. -/

/-- A valid MIME header token byte (`net/textproto`): alphanumeric or one of
`! # $ % & ' * + - . ^ _ \x60 | ~`. -/
def isTokenChar (c : Char) : Bool :=
  ('a' ≤ c ∧ c ≤ 'z') ∨ ('A' ≤ c ∧ c ≤ 'Z') ∨ ('0' ≤ c ∧ c ≤ '9') ∨
  decide (c ∈ ([33, 35, 36, 37, 38, 39, 42, 43, 45, 46, 94, 95, 96, 124, 126].map
    Char.ofNat))

def toUpperAscii (c : Char) : Char :=
  if 'a' ≤ c ∧ c ≤ 'z' then Char.ofNat (c.toNat - 32) else c

/-- The canonicalisation loop: upper-case the first letter and each letter
after a hyphen, lower-case the rest. -/
def canonChars : Bool → List Char → List Char
  | _, [] => []
  | upper, c :: rest =>
    let c' := if upper then toUpperAscii c else lowerChar c
    c' :: canonChars (c' = '-') rest

/-- Model of `http.CanonicalHeaderKey`: canonicalise when every byte is a valid token
byte, otherwise return the key unchanged. -/
def canonicalHeaderKey (s : String) : String :=
  if s.data.all isTokenChar then ⟨canonChars true s.data⟩ else s

/-- The `hopByHopHeaders` set of internal/proxy/stream.go. -/
def hopByHopHeaders : List String :=
  ["Connection", "Keep-Alive", "Transfer-Encoding", "Te", "Trailer", "Upgrade"]

/-- The engine `StreamResponse` fields the proxy reads. -/
structure StreamResponseModel where
  statusCode : Nat
  contentLength : Int
  contentType : String
  header : List (String × List String)
  deriving Repr, DecidableEq

/-- The observable reply the proxy builds: the status it sets and the ordered
`(key, value)` pairs passed to `c.Set`. -/
structure ClientStreamReply where
  status : Nat
  setOps : List (String × String)
  deriving Repr, DecidableEq

/-- The header-copy loop: skip keys whose canonical form is hop-by-hop,
forward every value of the others. -/
def forwardSetOps (hdrs : List (String × List String)) : List (String × String) :=
  hdrs.flatMap fun kv =>
    if hopByHopHeaders.contains (canonicalHeaderKey kv.1) then []
    else kv.2.map fun v => (kv.1, v)

/-- The success path of `StreamProxy.HandleStream` after `engine.StreamFile`
returns. -/
def handleStreamSuccess (resp : StreamResponseModel) : ClientStreamReply :=
  { status := resp.statusCode, setOps := forwardSetOps resp.header }

/-! ### The browser-tab relay producer (internal/relay/server.go)

`Server.Fetch` first checks `Connected()` — a browser poll within the last 10
seconds — and returns immediately with an error when false, before assigning
an ID, creating a response channel, or enqueuing a pending entry.  We model
the state the mutex guards plus the two atomics, with times in Unix seconds;
`delivery` stands for the response (if any) that reaches the channel before
the caller-supplied timeout. -/

structure RelayFetchRequest where
  id : String
  url : String
  deriving Repr, DecidableEq

structure RelayPendingEntry where
  req : RelayFetchRequest
  createdAt : Int
  deriving Repr, DecidableEq

structure RelayFetchResponse where
  statusCode : Int
  body : String
  error : String
  deriving Repr, DecidableEq

structure RelayState where
  pending : List RelayPendingEntry
  channels : List String
  nextID : Int
  lastPoll : Int
  deriving Repr, DecidableEq

/-- Model of `Server.Connected`: a poll arrived within the last 10 seconds. -/
def relayConnected (s : RelayState) (now : Int) : Bool :=
  if s.lastPoll = 0 then false else now - s.lastPoll < 10

inductive RelayFetchResult where
  | disconnected
  | browserError (msg : String)
  | timeout
  | ok (body : String) (status : Int)
  deriving Repr, DecidableEq

/-- Model of `Server.Fetch`: bail out when no browser is connected; otherwise assign
the next ID, register the channel, enqueue the request, wait (the channel is
removed again by the deferred cleanup), and translate the outcome. -/
def relayFetch (s : RelayState) (rawURL : String) (_timeoutMs : Nat) (now : Int)
    (delivery : Option RelayFetchResponse) : RelayFetchResult × RelayState :=
  if relayConnected s now = false then (.disconnected, s)
  else
    let reqID := "r" ++ intRepr (s.nextID + 1)
    let s1 : RelayState :=
      { s with nextID := s.nextID + 1,
               channels := reqID :: s.channels,
               pending := s.pending ++ [⟨⟨reqID, rawURL⟩, now⟩] }
    let s2 := { s1 with channels := s1.channels.filter (· ≠ reqID) }
    match delivery with
    | none => (.timeout, s2)
    | some resp =>
      if resp.error ≠ "" then (.browserError resp.error, s2)
      else (.ok resp.body resp.statusCode, s2)

/-! ### The wrapper's catalog / meta / stream handlers (internal/addon/wrapper.go)

Each handler looks up the addon, fetches the upstream JSON, and on any
upstream failure answers 200 with the route's empty sentinel.  Fiber's
default status (no `c.Status` call) is 200. -/

/-- What reaching the upstream produced: a transport/status failure from
`fetchJSON`, bytes that do not parse as a JSON object
(`json.Unmarshal` into `map[string]interface{}` fails on malformed input),
or the decoded JSON document. -/
inductive UpstreamBody where
  | fetchError
  | unparsable
  | parsed (j : Json)

/-- A handler reply body: a literal string (sentinels, errors) or a marshaled
JSON document. -/
inductive ReplyBody where
  | raw (s : String)
  | jsonDoc (j : Json)

/-- Model of `Wrapper.HandleCatalog` after the route params are read: 404 for an
unknown addon, the upstream bytes on success, `{"metas":[]}` on fetch
failure. -/
def handleCatalog (registered : Bool) (fetch : Option String) : Nat × ReplyBody :=
  if ¬ registered then (404, .raw "\x7b\"error\":\"addon not found\"\x7d")
  else
    match fetch with
    | none => (200, .raw "\x7b\"metas\":[]\x7d")
    | some body => (200, .raw body)

/-- Model of `Wrapper.HandleMeta`: as the catalog route with the `{"meta":{}}`
sentinel. -/
def handleMeta (registered : Bool) (fetch : Option String) : Nat × ReplyBody :=
  if ¬ registered then (404, .raw "\x7b\"error\":\"addon not found\"\x7d")
  else
    match fetch with
    | none => (200, .raw "\x7b\"meta\":\x7b\x7d\x7d")
    | some body => (200, .raw body)

def objDelete (fields : List (String × Json)) (k : String) : List (String × Json) :=
  fields.filter fun p => p.1 ≠ k

def objSet (fields : List (String × Json)) (k : String) (v : Json) :
    List (String × Json) :=
  objDelete fields k ++ [(k, v)]

def jGetStr (fields : List (String × Json)) (k : String) : Option String :=
  match jLookup fields k with
  | some (.str s) => some s
  | _ => none

def jGetNum (fields : List (String × Json)) (k : String) : Option Int :=
  match jLookup fields k with
  | some (.num n) => some n
  | _ => none

/-- The per-entry stream rewrite: entries that are not objects or carry no
`infoHash` pass through; otherwise drop `infoHash`/`fileIdx`/`sources`, point
`url` at the bridge, and tag the title.  (The fire-and-forget `AddTorrent`
goroutine has no effect on the response.) -/
def rewriteStream (externalBase : String) (item : Json) : Json :=
  match item with
  | .obj fields =>
    match jGetStr fields "infoHash" with
    | some ih =>
      if ih = "" then item
      else
        let fileIdx := match jGetNum fields "fileIdx" with | some n => n | none => 0
        let f1 := objDelete (objDelete (objDelete fields "infoHash") "fileIdx") "sources"
        let f2 := objSet f1 "url"
          (.str (externalBase ++ "/stream/" ++ lowerS ih ++ "/" ++ intRepr fileIdx))
        let f3 :=
          match jGetStr f2 "title" with
          | some t => objSet f2 "title" (.str (t ++ " [Bridge]"))
          | none => f2
        .obj f3
    | none => item
  | _ => item

/-- Model of `Wrapper.HandleStream` after the route params are read: every upstream
failure mode — fetch error, unparsable body, non-object document, missing
`streams` key, non-array `streams` — answers 200 with `{"streams":[]}`; the
success path rewrites each entry. -/
def handleStream (registered : Bool) (body : UpstreamBody) (externalBase : String) :
    Nat × ReplyBody :=
  if ¬ registered then (404, .raw "\x7b\"error\":\"addon not found\"\x7d")
  else
    match body with
    | .fetchError => (200, .raw "\x7b\"streams\":[]\x7d")
    | .unparsable => (200, .raw "\x7b\"streams\":[]\x7d")
    | .parsed j =>
      match j with
      | .obj fields =>
        match jLookup fields "streams" with
        | none => (200, .raw "\x7b\"streams\":[]\x7d")
        | some js =>
          match js with
          | .arr items =>
            (200, .jsonDoc (.obj (objSet fields "streams"
              (.arr (items.map (rewriteStream externalBase))))))
          | _ => (200, .raw "\x7b\"streams\":[]\x7d")
      | _ => (200, .raw "\x7b\"streams\":[]\x7d")

/-- The header `bytes=a-b`. -/
def mkRange (a b : Nat) : String :=
  ⟨"bytes=".data ++ natDigits a ++ '-' :: natDigits b⟩

/-- The open-ended header `bytes=a-`. -/
def mkOpenRange (a : Nat) : String :=
  ⟨"bytes=".data ++ natDigits a ++ ['-']⟩

/-- The suffix header `bytes=-k`. -/
def mkSuffixRange (k : Nat) : String :=
  ⟨"bytes=".data ++ '-' :: natDigits k⟩

/-! ### Sanity examples for the range parser (concrete evaluations) -/

example : parseRangeHeader "bytes=0-499" 1000 = .ok (0, 499) := by decide

example : parseRangeHeader "bytes=500-" 1000 = .ok (500, 999) := by decide

example : parseRangeHeader "bytes=-500" 1000 = .ok (500, 999) := by decide

example : parseRangeHeader "bytes=-2000" 1000 = .ok (0, 999) := by decide

example : parseRangeHeader "bytes=0-4,10-20" 1000 = .ok (0, 4) := by decide

example : parseRangeHeader "bytes=700-9999" 1000 = .ok (700, 999) := by decide

example : parseRangeHeader "bytes=5-3" 1000 = .error .notSatisfiable := by decide

example : parseRangeHeader "bytes=1000-1000" 1000 = .error .notSatisfiable := by decide

example : parseRangeHeader "bytes=-0" 1000 = .error .notSatisfiable := by decide

example : parseRangeHeader "bytes" 1000 = .error .unsupportedFormat := by decide

example : parseRangeHeader "bytes=17" 1000 = .error .invalidFormat := by decide

example : mkRange 0 499 = "bytes=0-499" := by decide

example : mkSuffixRange 500 = "bytes=-500" := by decide

example : mkOpenRange 500 = "bytes=500-" := by decide

/-! ### Correctness of the decimal printer / parser pair -/

theorem natDigitsAux_congr : ∀ (n fuel fuel' : Nat), n < fuel → n < fuel' →
    natDigitsAux fuel n = natDigitsAux fuel' n := by
  intro n
  induction n using Nat.strong_induction_on with
  | _ n ih =>
    intro fuel fuel' hf hf'
    match fuel, fuel' with
    | f + 1, g + 1 =>
      simp only [natDigitsAux]
      by_cases h10 : n < 10
      · simp [h10]
      · simp only [h10, if_neg, if_false]
        have hnd : n / 10 < n := Nat.div_lt_self (by omega) (by omega)
        rw [ih (n / 10) hnd f g (by omega) (by omega)]

theorem natDigits_unfold (n : Nat) :
    natDigits n = if n < 10 then [digitChar n]
      else natDigits (n / 10) ++ [digitChar (n % 10)] := by
  by_cases h10 : n < 10
  · simp [natDigits, natDigitsAux, h10]
  · have hnd : n / 10 < n := Nat.div_lt_self (by omega) (by omega)
    simp only [natDigits, natDigitsAux, h10, if_false]
    congr 1
    exact natDigitsAux_congr (n / 10) n (n / 10 + 1) (by omega) (by omega)

theorem digitChar_toNat (m : Nat) (h : m < 10) : (digitChar m).toNat = 48 + m := by
  interval_cases m <;> decide

theorem isDigitChar_digitChar (m : Nat) (h : m < 10) : isDigitChar (digitChar m) = true := by
  interval_cases m <;> decide

theorem mem_natDigits_digit : ∀ (n : Nat) (c : Char), c ∈ natDigits n → isDigitChar c = true := by
  intro n
  induction n using Nat.strong_induction_on with
  | _ n ih =>
    intro c hc
    rw [natDigits_unfold] at hc
    by_cases h10 : n < 10
    · simp [h10] at hc
      exact hc ▸ isDigitChar_digitChar n h10
    · simp [h10] at hc
      rcases hc with hc | hc
      · exact ih (n / 10) (Nat.div_lt_self (by omega) (by omega)) c hc
      · exact hc ▸ isDigitChar_digitChar (n % 10) (Nat.mod_lt n (by omega))

theorem natDigits_ne_nil (n : Nat) : natDigits n ≠ [] := by
  rw [natDigits_unfold]
  by_cases h10 : n < 10 <;> simp [h10]

theorem parseDigitsAcc_append (xs ys : List Char) (acc : Nat) :
    parseDigitsAcc (xs ++ ys) acc =
      match parseDigitsAcc xs acc with
      | none => none
      | some v => parseDigitsAcc ys v := by
  induction xs generalizing acc with
  | nil => simp [parseDigitsAcc]
  | cons c cs ih =>
    simp only [List.cons_append, parseDigitsAcc]
    by_cases hd : isDigitChar c = true
    · simp [hd, ih]
    · simp [hd]

theorem parseDigitsAcc_natDigits : ∀ (n acc : Nat),
    ∃ e, parseDigitsAcc (natDigits n) acc = some (acc * 10 ^ e + n) := by
  intro n
  induction n using Nat.strong_induction_on with
  | _ n ih =>
    intro acc
    rw [natDigits_unfold]
    by_cases h10 : n < 10
    · refine ⟨1, ?_⟩
      simp [h10, parseDigitsAcc, isDigitChar_digitChar n h10, digitChar_toNat n h10, pow_one]
    · simp only [h10, if_false]
      obtain ⟨e, he⟩ := ih (n / 10) (Nat.div_lt_self (by omega) (by omega)) acc
      rw [parseDigitsAcc_append, he]
      refine ⟨e + 1, ?_⟩
      have hm : n % 10 < 10 := Nat.mod_lt n (by omega)
      simp [parseDigitsAcc, isDigitChar_digitChar _ hm, digitChar_toNat _ hm]
      have := Nat.div_add_mod n 10
      ring_nf
      omega

theorem natDigits_head_digit (n : Nat) :
    ∃ c cs, natDigits n = c :: cs ∧ isDigitChar c = true := by
  match h : natDigits n with
  | [] => exact absurd h (natDigits_ne_nil n)
  | c :: cs => exact ⟨c, cs, rfl, mem_natDigits_digit n c (h ▸ List.mem_cons_self c cs)⟩

theorem ne_of_digit {c : Char} (h : isDigitChar c = true) :
    c ≠ '+' ∧ c ≠ '-' ∧ c ≠ ',' ∧ isGoSpace c = false := by
  simp only [isDigitChar, Bool.and_eq_true, decide_eq_true_eq] at h
  obtain ⟨h1, h2⟩ := h
  have hv1 : ('0' : Char).toNat ≤ c.toNat := h1
  have hv2 : c.toNat ≤ ('9' : Char).toNat := h2
  refine ⟨?_, ?_, ?_, ?_⟩
  · rintro rfl; revert hv1; decide
  · rintro rfl; revert hv1; decide
  · rintro rfl; revert hv1; decide
  · simp only [isGoSpace, Bool.or_eq_false_iff]
    refine ⟨⟨⟨⟨⟨⟨⟨?_, ?_⟩, ?_⟩, ?_⟩, ?_⟩, ?_⟩, ?_⟩, ?_⟩ <;>
      { simp only [decide_eq_false_iff_not]
        rintro rfl
        revert hv1 hv2
        decide }

theorem goParseInt64_natDigits (n : Nat) (h64 : (n : Int) ≤ maxInt64) :
    goParseInt64 (natDigits n) = some ((n : Int)) := by
  obtain ⟨c, cs, hcons, hdig⟩ := natDigits_head_digit n
  obtain ⟨hplus, hminus, _, _⟩ := ne_of_digit hdig
  obtain ⟨e, he⟩ := parseDigitsAcc_natDigits n 0
  simp only [Nat.zero_mul, Nat.zero_add] at he
  rw [goParseInt64.eq_def, hcons]
  simp only [hplus, hminus, if_false, ite_false, if_neg, not_false_iff, List.isEmpty_cons,
    Bool.false_eq_true, ← hcons, he]
  rw [hcons]
  have h0 : (0 : Int) ≤ (n : Int) := Int.ofNat_nonneg n
  have hnb : ¬ ((n : Int) < -2 ^ 63 ∨ maxInt64 < (n : Int)) := by
    push_neg
    exact ⟨by omega, h64⟩
  simp [hnb]
  exact ⟨by omega, h64⟩

/-! ### Evaluating the range-parsing pipeline on rendered headers -/

theorem dropWhile_eq_self_of_not {p : Char → Bool} :
    ∀ l : List Char, (∀ c ∈ l, p c = false) → l.dropWhile p = l := by
  intro l h
  cases l with
  | nil => rfl
  | cons c cs => simp [List.dropWhile, h c (List.mem_cons_self c cs)]

theorem trimSpaceL_digits (ds : List Char) (h : ∀ c ∈ ds, isDigitChar c = true) :
    trimSpaceL ds = ds := by
  have hns : ∀ c ∈ ds, isGoSpace c = false := fun c hc => (ne_of_digit (h c hc)).2.2.2
  rw [trimSpaceL, dropWhile_eq_self_of_not ds hns, dropWhile_eq_self_of_not,
    List.reverse_reverse]
  intro c hc
  exact hns c (List.mem_reverse.mp hc)

theorem startsWithL_nil (l : List Char) : startsWithL l [] = true := by
  cases l <;> rfl

theorem startsWithL_append (pre rest : List Char) : startsWithL (pre ++ rest) pre = true := by
  induction pre with
  | nil => exact startsWithL_nil rest
  | cons p ps ih => simp [startsWithL, ih]

theorem natDigits_isEmpty (n : Nat) : (natDigits n).isEmpty = false := by
  obtain ⟨c, cs, hcons, _⟩ := natDigits_head_digit n
  rw [hcons]
  rfl

theorem trimSpaceL_nil : trimSpaceL [] = [] := rfl

theorem splitFirstL_cons_self (l : List Char) (t : Char) :
    splitFirstL (t :: l) t = some ([], l) := by
  simp [splitFirstL]

theorem drop_len_append (l r : List Char) : (l ++ r).drop l.length = r := by
  induction l with
  | nil => rfl
  | cons c cs ih => simp [ih]

theorem idxOfCharL_not_mem (l : List Char) (t : Char) (h : ∀ c ∈ l, c ≠ t) :
    idxOfCharL l t = none := by
  induction l with
  | nil => rfl
  | cons c cs ih =>
    simp only [idxOfCharL, h c (List.mem_cons_self c cs), if_false]
    simp [ih fun d hd => h d (List.mem_cons_of_mem c hd)]

theorem idxOfCharL_append_first (l r : List Char) (t : Char) (h : ∀ c ∈ l, c ≠ t) :
    idxOfCharL (l ++ t :: r) t = some l.length := by
  induction l with
  | nil => simp [idxOfCharL]
  | cons c cs ih =>
    simp only [List.cons_append, idxOfCharL, h c (List.mem_cons_self c cs), if_false]
    simp [ih fun d hd => h d (List.mem_cons_of_mem c hd)]

theorem take_len_append (l r : List Char) : (l ++ r).take l.length = l := by
  induction l with
  | nil => rfl
  | cons c cs ih => simp [ih]

theorem splitFirstL_append (l r : List Char) (t : Char) (h : ∀ c ∈ l, c ≠ t) :
    splitFirstL (l ++ t :: r) t = some (l, r) := by
  induction l with
  | nil => simp [splitFirstL]
  | cons c cs ih =>
    simp only [List.cons_append, splitFirstL, h c (List.mem_cons_self c cs), if_false]
    simp [ih fun d hd => h d (List.mem_cons_of_mem c hd)]

theorem cutComma_no_comma (s : List Char) (h : ∀ c ∈ s, c ≠ ',') : cutComma s = s := by
  simp [cutComma, idxOfCharL_not_mem s ',' h]

theorem cutComma_first (s r : List Char) (h : ∀ c ∈ s, c ≠ ',') :
    cutComma (s ++ ',' :: r) = s := by
  simp [cutComma, idxOfCharL_append_first s r ',' h, take_len_append]

theorem parseRangeHeaderL_strip (spec : List Char) (N : Int)
    (h : ∀ c ∈ spec, c ≠ ',') :
    parseRangeHeaderL ("bytes=".data ++ spec) N = parseRangeBody spec N := by
  rw [parseRangeHeaderL, startsWithL_append]
  have h6 : ("bytes=".data).length = 6 := rfl
  rw [dropStartL, ← h6, drop_len_append, cutComma_no_comma spec h]
  simp

theorem parseRangeHeaderL_multi (spec r : List Char) (N : Int)
    (h : ∀ c ∈ spec, c ≠ ',') :
    parseRangeHeaderL ("bytes=".data ++ spec ++ ',' :: r) N = parseRangeBody spec N := by
  rw [parseRangeHeaderL, List.append_assoc, startsWithL_append]
  have h6 : ("bytes=".data).length = 6 := rfl
  rw [dropStartL, ← h6, drop_len_append, cutComma_first spec r h]
  simp

theorem parseRangeBody_bounded (a b : Nat) (N : Int)
    (h64a : (a : Int) ≤ maxInt64) (h64b : (b : Int) ≤ maxInt64) :
    parseRangeBody (natDigits a ++ '-' :: natDigits b) N = finishRange a b N := by
  have hda := mem_natDigits_digit a
  have hdb := mem_natDigits_digit b
  rw [parseRangeBody,
    splitFirstL_append _ _ '-' (fun c hc => (ne_of_digit (hda c hc)).2.1)]
  simp only [trimSpaceL_digits _ hda, trimSpaceL_digits _ hdb, natDigits_isEmpty,
    Bool.false_eq_true, if_false, goParseInt64_natDigits a h64a,
    goParseInt64_natDigits b h64b]

theorem parseRangeBody_open (a : Nat) (N : Int) (h64a : (a : Int) ≤ maxInt64) :
    parseRangeBody (natDigits a ++ ['-']) N = finishRange a (N - 1) N := by
  have hda := mem_natDigits_digit a
  rw [parseRangeBody,
    splitFirstL_append _ [] '-' (fun c hc => (ne_of_digit (hda c hc)).2.1)]
  simp only [trimSpaceL_digits _ hda, trimSpaceL_nil, natDigits_isEmpty,
    Bool.false_eq_true, if_false, goParseInt64_natDigits a h64a,
    List.isEmpty_nil, if_true]

theorem parseRangeBody_suffix (k : Nat) (N : Int) (h64k : (k : Int) ≤ maxInt64) :
    parseRangeBody ('-' :: natDigits k) N =
      finishRange (if N - (k : Int) < 0 then 0 else N - k) (N - 1) N := by
  have hdk := mem_natDigits_digit k
  rw [parseRangeBody, splitFirstL_cons_self]
  simp only [trimSpaceL_digits _ hdk, trimSpaceL_nil, List.isEmpty_nil, if_true,
    goParseInt64_natDigits k h64k]

theorem natDigits_no_comma (n : Nat) : ∀ c ∈ natDigits n, c ≠ ',' :=
  fun c hc => (ne_of_digit (mem_natDigits_digit n c hc)).2.2.1

theorem boundedSpec_no_comma (a b : Nat) :
    ∀ c ∈ natDigits a ++ '-' :: natDigits b, c ≠ ',' := by
  intro c hc
  rcases List.mem_append.mp hc with hc | hc
  · exact natDigits_no_comma a c hc
  · rcases List.mem_cons.mp hc with rfl | hc
    · decide
    · exact natDigits_no_comma b c hc

theorem parseRangeHeader_mkRange (a b : Nat) (N : Int)
    (h64a : (a : Int) ≤ maxInt64) (h64b : (b : Int) ≤ maxInt64) :
    parseRangeHeader (mkRange a b) N = finishRange a b N := by
  show parseRangeHeaderL ("bytes=".data ++ natDigits a ++ '-' :: natDigits b) N = _
  rw [List.append_assoc,
    parseRangeHeaderL_strip _ N (boundedSpec_no_comma a b),
    parseRangeBody_bounded a b N h64a h64b]

theorem parseRangeHeader_mkOpen (a : Nat) (N : Int) (h64a : (a : Int) ≤ maxInt64) :
    parseRangeHeader (mkOpenRange a) N = finishRange a (N - 1) N := by
  show parseRangeHeaderL ("bytes=".data ++ natDigits a ++ ['-']) N = _
  have hnc : ∀ c ∈ natDigits a ++ ['-'], c ≠ ',' := by
    intro c hc
    rcases List.mem_append.mp hc with hc | hc
    · exact natDigits_no_comma a c hc
    · rcases List.mem_singleton.mp hc with rfl
      decide
  rw [List.append_assoc, parseRangeHeaderL_strip _ N hnc, parseRangeBody_open a N h64a]

theorem parseRangeHeader_mkSuffix (k : Nat) (N : Int) (h64k : (k : Int) ≤ maxInt64) :
    parseRangeHeader (mkSuffixRange k) N =
      finishRange (if N - (k : Int) < 0 then 0 else N - k) (N - 1) N := by
  show parseRangeHeaderL ("bytes=".data ++ '-' :: natDigits k) N = _
  have hnc : ∀ c ∈ '-' :: natDigits k, c ≠ ',' := by
    intro c hc
    rcases List.mem_cons.mp hc with rfl | hc
    · decide
    · exact natDigits_no_comma k c hc
  rw [parseRangeHeaderL_strip _ N hnc, parseRangeBody_suffix k N h64k]

/-- C1 (amended).  For every total size `0 < N ≤ 2^63−1`: `bytes=a-b` with
`a ≤ b < N` parses to `(a, b)`; with `b < a` or `N ≤ a` it fails with the
range-not-satisfiable error; `bytes=a-` with `a < N` parses to `(a, N−1)`;
`bytes=-k` with `k ≥ 1` parses to `(max 0 (N−k), N−1)` (the claim's original
`k = 0` case instead fails as unsatisfiable, see the counterexample); and a
multi-range header uses only its first comma-separated range. -/
theorem claim_C1_range_contract (N a b k : Nat) (s r : List Char)
    (hN : 0 < N) (hN64 : (N : Int) ≤ maxInt64) :
    (a ≤ b → b < N → parseRangeHeader (mkRange a b) N = .ok (a, b)) ∧
    ((a : Int) ≤ maxInt64 → (b : Int) ≤ maxInt64 → (b < a ∨ N ≤ a) →
      parseRangeHeader (mkRange a b) N = .error .notSatisfiable) ∧
    (a < N → parseRangeHeader (mkOpenRange a) N = .ok (a, (N : Int) - 1)) ∧
    (1 ≤ k → (k : Int) ≤ maxInt64 →
      parseRangeHeader (mkSuffixRange k) N = .ok (max 0 ((N : Int) - k), (N : Int) - 1)) ∧
    ((∀ c ∈ s, c ≠ ',') →
      parseRangeHeaderL ("bytes=".data ++ s ++ ',' :: r) N =
        parseRangeHeaderL ("bytes=".data ++ s) N) := by
  refine ⟨?_, ?_, ?_, ?_, ?_⟩
  · intro hab hbN
    have h64a : (a : Int) ≤ maxInt64 := by simp only [maxInt64] at *; omega
    have h64b : (b : Int) ≤ maxInt64 := by simp only [maxInt64] at *; omega
    rw [parseRangeHeader_mkRange a b N h64a h64b, finishRange,
      if_neg (by omega), if_neg (by omega)]
  · intro h64a h64b hfail
    rw [parseRangeHeader_mkRange a b N h64a h64b, finishRange, if_pos (by omega)]
  · intro haN
    have h64a : (a : Int) ≤ maxInt64 := by simp only [maxInt64] at *; omega
    rw [parseRangeHeader_mkOpen a N h64a, finishRange,
      if_neg (by omega), if_neg (by omega)]
  · intro hk h64k
    rw [parseRangeHeader_mkSuffix k N h64k, finishRange]
    have hmax : (if (N : Int) - k < 0 then 0 else (N : Int) - k) = max 0 ((N : Int) - k) := by
      rcases lt_or_ge ((N : Int) - k) 0 with h | h
      · rw [if_pos h, max_eq_left (by omega)]
      · rw [if_neg (by omega), max_eq_right h]
    have hcond : ¬ (max 0 ((N : Int) - k) > (N : Int) - 1 ∨ max 0 ((N : Int) - k) ≥ (N : Int)) := by
      rcases max_cases 0 ((N : Int) - k) with ⟨h1, h2⟩ | ⟨h1, h2⟩ <;> rw [h1] <;> omega
    rw [hmax, if_neg hcond, if_neg (by omega)]
  · intro hnc
    rw [parseRangeHeaderL_multi s r N hnc, parseRangeHeaderL_strip s N hnc]

/-- C1 counterexample: the claim also asserts `bytes=-k` returns
`(max(0, N−k), N−1)` for every `k`, but at `k = 0`, `N = 1` the code rejects
the range as unsatisfiable (`start` becomes `N`, which exceeds `end = N−1`). -/
theorem claim_C1_counterexample :
    parseRangeHeader (mkSuffixRange 0) 1 = .error .notSatisfiable ∧
    parseRangeHeader (mkSuffixRange 0) 1 ≠
      .ok (max 0 ((1 : Int) - (0 : Nat)), (1 : Int) - 1) := by
  constructor
  · decide
  · intro h
    rw [show (max 0 ((1 : Int) - (0 : Nat)), (1 : Int) - 1) = ((1 : Int), (0 : Int)) by decide]
      at h
    revert h
    decide

/-- Witness for C1 at concrete inputs. -/
theorem claim_C1_witness :
    parseRangeHeader (mkRange 2 5) 10 = .ok (2, 5) ∧
    parseRangeHeader (mkRange 7 3) 10 = .error .notSatisfiable ∧
    parseRangeHeader (mkOpenRange 4) 10 = .ok (4, (10 : Int) - 1) ∧
    parseRangeHeader (mkSuffixRange 3) 10 = .ok (max 0 ((10 : Int) - 3), (10 : Int) - 1) ∧
    parseRangeHeaderL ("bytes=".data ++ "1-2".data ++ ',' :: "7-9".data) 10 =
      parseRangeHeaderL ("bytes=".data ++ "1-2".data) 10 := by
  refine ⟨?_, ?_, ?_, ?_, ?_⟩
  · exact (claim_C1_range_contract 10 2 5 3 [] [] (by decide) (by decide)).1
      (by decide) (by decide)
  · exact (claim_C1_range_contract 10 7 3 3 [] [] (by decide) (by decide)).2.1
      (by decide) (by decide) (Or.inl (by decide))
  · exact (claim_C1_range_contract 10 4 5 3 [] [] (by decide) (by decide)).2.2.1
      (by decide)
  · exact (claim_C1_range_contract 10 2 5 3 [] [] (by decide) (by decide)).2.2.2.1
      (by decide) (by decide)
  · exact (claim_C1_range_contract 10 2 5 3 "1-2".data "7-9".data (by decide)
      (by decide)).2.2.2.2 (by decide)

/-- C10: the parser clamps over-long ranges instead of rejecting them: for
`0 < N ≤ 2^63−1`, `bytes=a-b` with `a < N ≤ b` parses to `(a, N−1)`, and
`bytes=-k` with `k ≥ N` parses to `(0, N−1)`; neither is unsatisfiable. -/
theorem claim_C10_range_clamp (N a b k : Nat) (hN : 0 < N) (_hN64 : (N : Int) ≤ maxInt64) :
    (a < N → N ≤ b → (b : Int) ≤ maxInt64 →
      parseRangeHeader (mkRange a b) N = .ok (a, (N : Int) - 1)) ∧
    (N ≤ k → (k : Int) ≤ maxInt64 →
      parseRangeHeader (mkSuffixRange k) N = .ok (0, (N : Int) - 1)) := by
  constructor
  · intro haN hNb h64b
    have h64a : (a : Int) ≤ maxInt64 := by simp only [maxInt64] at *; omega
    rw [parseRangeHeader_mkRange a b N h64a h64b, finishRange,
      if_neg (by omega), if_pos (by omega)]
  · intro hNk h64k
    rw [parseRangeHeader_mkSuffix k N h64k]
    have hst : (if (N : Int) - k < 0 then 0 else (N : Int) - k) = (0 : Int) := by
      rcases lt_or_ge ((N : Int) - k) 0 with h | h
      · rw [if_pos h]
      · rw [if_neg (by omega)]
        omega
    rw [hst, finishRange, if_neg (by omega), if_neg (by omega)]

/-- Witness for C10 at concrete inputs. -/
theorem claim_C10_witness :
    parseRangeHeader (mkRange 3 12) 10 = .ok (3, (10 : Int) - 1) ∧
    parseRangeHeader (mkSuffixRange 15) 10 = .ok (0, (10 : Int) - 1) := by
  constructor
  · exact (claim_C10_range_clamp 10 3 12 15 (by decide) (by decide)).1
      (by decide) (by decide) (by decide)
  · exact (claim_C10_range_clamp 10 3 12 15 (by decide) (by decide)).2
      (by decide) (by decide)

/-! ### Evaluating the magnet parsing pipeline -/

example : ParseInfoHashFromMagnet
    "magnet:?xt=urn:btih:ABCDEF1234567890ABCDEF1234567890ABCDEF12" =
    "abcdef1234567890abcdef1234567890abcdef12" := by decide

example : ParseInfoHashFromMagnet "http://example.com/?xt=urn:btih:ABC" = "abc" := by decide

example : ParseInfoHashFromMagnet "magnet:?dn=foo" = "" := by decide

example : ParseInfoHashFromMagnet "magnet:?xt=urn:sha1:ABC" = "" := by decide

example : ParseInfoHashFromMagnet "notaurl" = "" := by decide

example : ParseInfoHashFromMagnet "magnet:?xt=btih:ABC" = "" := by decide

theorem splitAllL_no_sep (s : List Char) (t : Char) (h : ∀ c ∈ s, c ≠ t) :
    splitAllL s t = [s] := by
  induction s with
  | nil => rfl
  | cons c cs ih =>
    simp only [splitAllL, h c (List.mem_cons_self c cs), if_false,
      ih fun d hd => h d (List.mem_cons_of_mem c hd)]

theorem splitAllL_append_sep (a rest : List Char) (t : Char) (h : ∀ c ∈ a, c ≠ t) :
    splitAllL (a ++ t :: rest) t = a :: splitAllL rest t := by
  induction a with
  | nil => simp [splitAllL]
  | cons c cs ih =>
    simp only [List.cons_append, splitAllL, h c (List.mem_cons_self c cs), if_false,
      List.append_eq, ih fun d hd => h d (List.mem_cons_of_mem c hd)]

theorem queryUnescape_clean (v : List Char) (h : ∀ c ∈ v, c ≠ '%' ∧ c ≠ '+') :
    queryUnescape v = some v := by
  induction v with
  | nil => rfl
  | cons c cs ih =>
    have hc := h c (List.mem_cons_self c cs)
    have hrec := ih fun d hd => h d (List.mem_cons_of_mem c hd)
    rw [queryUnescape.eq_def]
    simp only [hc.1, hc.2, if_false, hrec]
    rfl

theorem rawQuery_no_qm (s : List Char) (h : ∀ c ∈ s, c ≠ '?') : rawQuery s = [] := by
  rw [rawQuery]
  cases hidx : idxOfCharL s '#' with
  | none =>
    simp only [hidx, idxOfCharL_not_mem s '?' h]
  | some i =>
    simp only [hidx, idxOfCharL_not_mem (s.take i) '?'
      fun c hc => h c (List.take_subset i s hc)]

theorem drop_len_succ_append (l r : List Char) (x : Char) :
    (l ++ x :: r).drop (l.length + 1) = r := by
  induction l with
  | nil => rfl
  | cons c cs ih => simp [ih]

theorem rawQuery_append (base q : List Char)
    (hb : ∀ c ∈ base, c ≠ '?' ∧ c ≠ '#') (hq : ∀ c ∈ q, c ≠ '#') :
    rawQuery (base ++ '?' :: q) = q := by
  have hnohash : ∀ c ∈ base ++ '?' :: q, c ≠ '#' := by
    intro c hc
    rcases List.mem_append.mp hc with hc | hc
    · exact (hb c hc).2
    · rcases List.mem_cons.mp hc with rfl | hc
      · decide
      · exact hq c hc
  rw [rawQuery]
  simp only [idxOfCharL_not_mem _ '#' hnohash,
    idxOfCharL_append_first base q '?' fun c hc => (hb c hc).1]
  exact drop_len_succ_append base q '?'

theorem cleanQueryChar_spec (c : Char) (h : cleanQueryChar c = true) :
    c ≠ '&' ∧ c ≠ '=' ∧ c ≠ '%' ∧ c ≠ '+' ∧ c ≠ ';' ∧ c ≠ '#' := by
  simpa [cleanQueryChar, decide_eq_true_eq] using h

theorem parseQueryPairs_pair (k v : List Char)
    (hk : ∀ c ∈ k, cleanQueryChar c = true)
    (hv : ∀ c ∈ v, cleanQueryChar c = true) :
    parseQueryPairs (k ++ '=' :: v) = [(k, v)] := by
  have hamp : ∀ c ∈ k ++ '=' :: v, c ≠ '&' := by
    intro c hc
    rcases List.mem_append.mp hc with hc | hc
    · exact (cleanQueryChar_spec c (hk c hc)).1
    · rcases List.mem_cons.mp hc with rfl | hc
      · decide
      · exact (cleanQueryChar_spec c (hv c hc)).1
  have hsemi : ¬ (';' ∈ k ++ '=' :: v) := by
    intro hc
    rcases List.mem_append.mp hc with hc | hc
    · exact (cleanQueryChar_spec _ (hk _ hc)).2.2.2.2.1 rfl
    · rcases List.mem_cons.mp hc with hc | hc
      · exact absurd hc.symm (by decide)
      · exact (cleanQueryChar_spec _ (hv _ hc)).2.2.2.2.1 rfl
  have hempty : (k ++ '=' :: v).isEmpty = false := by
    cases k <;> rfl
  rw [parseQueryPairs, splitAllL_no_sep _ '&' hamp]
  simp only [List.filterMap, hempty, Bool.false_eq_true, if_false]
  rw [if_neg (by simp [List.contains, List.elem_eq_mem, hsemi])]
  rw [splitFirstL_append k v '=' fun c hc => (cleanQueryChar_spec c (hk c hc)).2.1]
  rw [queryUnescape_clean k fun c hc =>
    ⟨(cleanQueryChar_spec c (hk c hc)).2.2.1, (cleanQueryChar_spec c (hk c hc)).2.2.2.1⟩]
  rw [queryUnescape_clean v fun c hc =>
    ⟨(cleanQueryChar_spec c (hv c hc)).2.2.1, (cleanQueryChar_spec c (hv c hc)).2.2.2.1⟩]

theorem queryGet_wellformed (base v : List Char)
    (hb : ∀ c ∈ base, c ≠ '?' ∧ c ≠ '#')
    (hv : ∀ c ∈ v, cleanQueryChar c = true) :
    queryGet (base ++ '?' :: ("xt=".data ++ v)) "xt".data = v := by
  have hq : ∀ c ∈ "xt=".data ++ v, c ≠ '#' := by
    intro c hc
    rcases List.mem_append.mp hc with hc | hc
    · have hx : c = 'x' ∨ c = 't' ∨ c = '=' := by simpa using hc
      rcases hx with rfl | rfl | rfl <;> decide
    · exact (cleanQueryChar_spec c (hv c hc)).2.2.2.2.2
  rw [queryGet, rawQuery_append base _ hb hq]
  have hseg : "xt=".data ++ v = "xt".data ++ '=' :: v := rfl
  rw [hseg, parseQueryPairs_pair "xt".data v (by decide) hv]
  simp [List.find?]

theorem hex_char_facts (c : Char) (h : isHexDigitChar c = true) :
    cleanQueryChar c = true ∧ c ≠ ':' ∧ c ≠ '?' := by
  simp only [isHexDigitChar, Bool.or_eq_true, decide_eq_true_eq] at h
  have hval : (48 ≤ c.toNat ∧ c.toNat ≤ 57) ∨ (97 ≤ c.toNat ∧ c.toNat ≤ 102) ∨
      (65 ≤ c.toNat ∧ c.toNat ≤ 70) := by
    rcases h with ⟨h1, h2⟩ | ⟨h1, h2⟩ | ⟨h1, h2⟩
    · exact Or.inl ⟨h1, h2⟩
    · exact Or.inr (Or.inl ⟨h1, h2⟩)
    · exact Or.inr (Or.inr ⟨h1, h2⟩)
  refine ⟨?_, ?_, ?_⟩
  · simp only [cleanQueryChar, decide_eq_true_eq]
    refine ⟨?_, ?_, ?_, ?_, ?_, ?_⟩ <;>
      { rintro rfl
        revert hval
        decide }
  · rintro rfl
    revert hval
    decide
  · rintro rfl
    revert hval
    decide

theorem parseInfoHash_wellformed_query (base v : List Char)
    (hb : ∀ c ∈ base, c ≠ '?' ∧ c ≠ '#')
    (hv : ∀ c ∈ v, cleanQueryChar c = true) :
    ParseInfoHashFromMagnet ⟨base ++ '?' :: ("xt=".data ++ v)⟩ =
      (if v.isEmpty then ""
       else
         let parts := splitAllL v ':'
         if parts.length < 3 then ""
         else if lowerL (parts.getD 1 []) ≠ "btih".data then ""
         else ⟨lowerL (parts.getD 2 [])⟩) := by
  show (let xt := queryGet (base ++ '?' :: ("xt=".data ++ v)) "xt".data ; _) = _
  rw [ParseInfoHashFromMagnet]
  show (let xt := queryGet (base ++ '?' :: ("xt=".data ++ v)) "xt".data ; _) = _
  rw [queryGet_wellformed base v hb hv]

/-- C4 (amended).  `ParseInfoHashFromMagnet` never inspects the scheme: for
ANY base (scheme and authority) free of `?`/`#`, a query `xt=urn:btih:H` with
`H` hex yields `lowercase(H)` — in particular for `http://…` inputs, refuting
the claim's "non-magnet scheme returns empty" clause (see the
counterexample).  Inputs with no query at all yield `""`; inputs whose query
carries no `xt` parameter yield `""` (stated both for an arbitrary input whose
parsed query pairs contain no `xt` key, and for any well-formed single-pair
query `k=v` with `k ≠ xt`); and an `xt` whose urn type is not `btih` yields
`""`. -/
theorem claim_C4_magnet_contract (base H T s k v : List Char) :
    ((∀ c ∈ base, c ≠ '?' ∧ c ≠ '#') → H.length = 40 →
      (∀ c ∈ H, isHexDigitChar c = true) →
      ParseInfoHashFromMagnet ⟨base ++ '?' :: ("xt=urn:btih:".data ++ H)⟩ = ⟨lowerL H⟩) ∧
    ((∀ c ∈ s, c ≠ '?') → ParseInfoHashFromMagnet ⟨s⟩ = "") ∧
    ((parseQueryPairs (rawQuery s)).find? (fun p => p.1 = "xt".data) = none →
      ParseInfoHashFromMagnet ⟨s⟩ = "") ∧
    ((∀ c ∈ base, c ≠ '?' ∧ c ≠ '#') →
      (∀ c ∈ k, cleanQueryChar c = true) →
      (∀ c ∈ v, cleanQueryChar c = true) →
      k ≠ "xt".data →
      ParseInfoHashFromMagnet ⟨base ++ '?' :: (k ++ '=' :: v)⟩ = "") ∧
    ((∀ c ∈ base, c ≠ '?' ∧ c ≠ '#') →
      (∀ c ∈ T, cleanQueryChar c = true ∧ c ≠ ':') →
      (∀ c ∈ H, cleanQueryChar c = true ∧ c ≠ ':') →
      lowerL T ≠ "btih".data →
      ParseInfoHashFromMagnet ⟨base ++ '?' :: ("xt=urn:".data ++ (T ++ ':' :: H))⟩ = "") := by
  refine ⟨?_, ?_, ?_, ?_, ?_⟩
  · intro hb _hlen hH
    have hv : ∀ c ∈ "urn:btih:".data ++ H, cleanQueryChar c = true := by
      intro c hc
      rcases List.mem_append.mp hc with hc | hc
      · have : c = 'u' ∨ c = 'r' ∨ c = 'n' ∨ c = ':' ∨ c = 'b' ∨ c = 't' ∨ c = 'i' ∨
            c = 'h' ∨ c = ':' := by simpa using hc
        rcases this with rfl | rfl | rfl | rfl | rfl | rfl | rfl | rfl | rfl <;> decide
      · exact (hex_char_facts c (hH c hc)).1
    have hshape : "xt=urn:btih:".data ++ H = "xt=".data ++ ("urn:btih:".data ++ H) := rfl
    rw [hshape, parseInfoHash_wellformed_query base _ hb hv]
    have hsplit : splitAllL ("urn:btih:".data ++ H) ':' = ["urn".data, "btih".data, H] := by
      have h1 : "urn:btih:".data ++ H = "urn".data ++ ':' :: ("btih".data ++ ':' :: H) := rfl
      rw [h1, splitAllL_append_sep _ _ ':' (by decide),
        splitAllL_append_sep _ _ ':' (by decide),
        splitAllL_no_sep H ':' fun c hc => (hex_char_facts c (hH c hc)).2.1]
    rw [if_neg (by simp), hsplit]
    have hbt : lowerL ['b', 't', 'i', 'h'] = ['b', 't', 'i', 'h'] := by decide
    simp [hbt]
  · intro hs
    rw [ParseInfoHashFromMagnet]
    show (let xt := queryGet s "xt".data ; _) = _
    rw [queryGet, rawQuery_no_qm s hs]
    rfl
  · intro hfind
    rw [ParseInfoHashFromMagnet]
    show (let xt := queryGet s "xt".data ; _) = _
    rw [queryGet, hfind]
    rfl
  · intro hb hk hv hne
    rw [ParseInfoHashFromMagnet]
    show (let xt := queryGet (base ++ '?' :: (k ++ '=' :: v)) "xt".data ; _) = _
    have hq : ∀ c ∈ k ++ '=' :: v, c ≠ '#' := by
      intro c hc
      rcases List.mem_append.mp hc with hc | hc
      · exact (cleanQueryChar_spec c (hk c hc)).2.2.2.2.2
      · rcases List.mem_cons.mp hc with rfl | hc
        · decide
        · exact (cleanQueryChar_spec c (hv c hc)).2.2.2.2.2
    rw [queryGet, rawQuery_append base _ hb hq, parseQueryPairs_pair k v hk hv]
    simp [List.find?, hne]
  · intro hb hT hH hbtih
    have hv : ∀ c ∈ "urn:".data ++ (T ++ ':' :: H), cleanQueryChar c = true := by
      intro c hc
      rcases List.mem_append.mp hc with hc | hc
      · have : c = 'u' ∨ c = 'r' ∨ c = 'n' ∨ c = ':' := by simpa using hc
        rcases this with rfl | rfl | rfl | rfl <;> decide
      · rcases List.mem_append.mp hc with hc | hc
        · exact (hT c hc).1
        · rcases List.mem_cons.mp hc with rfl | hc
          · decide
          · exact (hH c hc).1
    have hshape : "xt=urn:".data ++ (T ++ ':' :: H) =
        "xt=".data ++ ("urn:".data ++ (T ++ ':' :: H)) := rfl
    rw [hshape, parseInfoHash_wellformed_query base _ hb hv]
    have hsplit : splitAllL ("urn:".data ++ (T ++ ':' :: H)) ':' =
        "urn".data :: T :: splitAllL H ':' := by
      have h1 : "urn:".data ++ (T ++ ':' :: H) = "urn".data ++ ':' :: (T ++ ':' :: H) := rfl
      rw [h1, splitAllL_append_sep _ _ ':' (by decide),
        splitAllL_append_sep _ _ ':' fun c hc => (hT c hc).2]
    rw [if_neg (by simp), hsplit]
    have hlen : ¬ ("urn".data :: T :: splitAllL H ':').length < 3 := by
      rw [splitAllL_no_sep H ':' fun c hc => (hH c hc).2]
      simp
    rw [if_neg hlen, if_pos (by simpa using hbtih)]

/-- C4 counterexample: an input with scheme `http`, which the claim says must
return the empty string, in fact yields the lower-cased hash because the code
never checks the scheme. -/
theorem claim_C4_counterexample :
    ParseInfoHashFromMagnet
        "http://example.com/?xt=urn:btih:0123456789ABCDEF0123456789ABCDEF01234567" =
      "0123456789abcdef0123456789abcdef01234567" ∧
    ParseInfoHashFromMagnet
        "http://example.com/?xt=urn:btih:0123456789ABCDEF0123456789ABCDEF01234567" ≠ "" := by
  constructor <;> decide

/-- Witness for C4 at concrete inputs: a magnet and an http base with full
hashes, no query, a query whose pairs carry no xt key, a well-formed single
pair `dn=foo`, and a non-btih urn. -/
theorem claim_C4_witness :
    ParseInfoHashFromMagnet
        ⟨"magnet:".data ++ '?' :: ("xt=urn:btih:".data ++ "AAAABBBBCCCCDDDDEEEEFFFF0000111122223333".data)⟩ =
      ⟨lowerL "AAAABBBBCCCCDDDDEEEEFFFF0000111122223333".data⟩ ∧
    ParseInfoHashFromMagnet ⟨"magnet:".data⟩ = "" ∧
    ParseInfoHashFromMagnet ⟨"magnet:?dn=foo&tr=udp".data⟩ = "" ∧
    ParseInfoHashFromMagnet ⟨"magnet:".data ++ '?' :: ("dn".data ++ '=' :: "foo".data)⟩ = "" ∧
    ParseInfoHashFromMagnet
        ⟨"magnet:".data ++ '?' :: ("xt=urn:".data ++ ("sha1".data ++ ':' :: "ABC".data))⟩ = "" := by
  refine ⟨?_, ?_, ?_, ?_, ?_⟩
  · exact (claim_C4_magnet_contract "magnet:".data
      "AAAABBBBCCCCDDDDEEEEFFFF0000111122223333".data [] [] [] []).1
      (by decide) (by decide) (by decide)
  · exact (claim_C4_magnet_contract [] [] [] "magnet:".data [] []).2.1 (by decide)
  · exact (claim_C4_magnet_contract [] [] [] "magnet:?dn=foo&tr=udp".data [] []).2.2.1
      (by decide)
  · exact (claim_C4_magnet_contract "magnet:".data [] [] [] "dn".data "foo".data).2.2.2.1
      (by decide) (by decide) (by decide) (by decide)
  · exact (claim_C4_magnet_contract "magnet:".data "ABC".data "sha1".data [] [] []).2.2.2.2
      (by decide) (by decide) (by decide) (by decide)

/-! ### Piece-aware reader invariants -/

theorem scanFwd_ge (states : List Int) : ∀ (fuel i : Nat), i ≤ scanFwd states i fuel := by
  intro fuel
  induction fuel with
  | zero => intro i; exact le_refl i
  | succ fuel ih =>
    intro i
    rw [scanFwd]
    by_cases h : i + 1 < states.length ∧ states.getD (i + 1) 0 = 2
    · rw [if_pos h]
      exact le_trans (by omega) (ih (i + 1))
    · rw [if_neg h]

theorem waitForPiece_ge (pieceIdx : Nat) :
    ∀ (polls : List (Option (List Int))) (l : Int) (f : Nat),
      waitForPiece pieceIdx polls = some (l, f) → (pieceIdx : Int) ≤ l := by
  intro polls
  induction polls with
  | nil => intro l f h; simp [waitForPiece] at h
  | cons poll rest ih =>
    intro l f h
    cases poll with
    | none =>
      rw [waitForPiece] at h
      simp only [Option.map_eq_some'] at h
      obtain ⟨p, hp, hpe⟩ := h
      simp only [Prod.mk.injEq] at hpe
      exact hpe.1 ▸ ih p.1 p.2 (by rw [hp])
    | some states =>
      rw [waitForPiece] at h
      by_cases hc : pieceIdx < states.length ∧ states.getD pieceIdx 0 = 2
      · rw [if_pos hc] at h
        simp only [Option.some.injEq, Prod.mk.injEq] at h
        have := scanFwd_ge states states.length pieceIdx
        omega
      · rw [if_neg hc] at h
        simp only [Option.map_eq_some'] at h
        obtain ⟨p, hp, hpe⟩ := h
        simp only [Prod.mk.injEq] at hpe
        exact hpe.1 ▸ ih p.1 p.2 (by rw [hp])

theorem pieceAwareRead_mono (r : PieceAwareReader) (polls : List (Option (List Int)))
    (n : Nat) : r.lastPieceOK ≤ (pieceAwareRead r polls n).reader.lastPieceOK := by
  rw [pieceAwareRead]
  by_cases h : ((pieceIdxOf r : Int) > r.lastPieceOK)
  · simp only [h, if_true]
    match hw : waitForPiece (pieceIdxOf r) polls with
    | none => exact le_refl _
    | some (newLast, f) =>
      have := waitForPiece_ge (pieceIdxOf r) polls newLast f hw
      simp only []
      omega
  · simp [h]

/-- C2.  `lastPieceOK` never decreases: across one `Read` and across any
sequence of `Read` calls; and every `Read` whose piece index is at most
`lastPieceOK` delegates directly to the inner reader — it performs zero
piece-state fetches, succeeds with the inner reader's byte count, and only
advances the position. -/
theorem claim_C2_reader_invariants (r : PieceAwareReader)
    (polls : List (Option (List Int))) (n : Nat)
    (calls : List (List (Option (List Int)) × Nat)) :
    (r.lastPieceOK ≤ (pieceAwareRead r polls n).reader.lastPieceOK) ∧
    (r.lastPieceOK ≤ (readTrace r calls).lastPieceOK) ∧
    ((pieceIdxOf r : Int) ≤ r.lastPieceOK →
      pieceAwareRead r polls n = ⟨{ r with pos := r.pos + n }, some n, 0⟩) := by
  refine ⟨pieceAwareRead_mono r polls n, ?_, ?_⟩
  · induction calls generalizing r with
    | nil => exact le_refl _
    | cons call rest ih =>
      obtain ⟨cpolls, cn⟩ := call
      exact le_trans (pieceAwareRead_mono r cpolls cn) (ih _)
  · intro hle
    rw [pieceAwareRead, if_neg (by omega)]

/-- Witness for C2 at a concrete reader state. -/
theorem claim_C2_witness :
    let r : PieceAwareReader := ⟨8, 0, 4, 5⟩
    (r.lastPieceOK ≤ (pieceAwareRead r [some [2, 2, 2]] 3).reader.lastPieceOK) ∧
    (r.lastPieceOK ≤ (readTrace r [([some [2, 2, 2]], 3), ([], 1)]).lastPieceOK) ∧
    pieceAwareRead r [some [2, 2, 2]] 3 = ⟨{ r with pos := r.pos + 3 }, some 3, 0⟩ := by
  refine ⟨?_, ?_, ?_⟩
  · exact (claim_C2_reader_invariants ⟨8, 0, 4, 5⟩ [some [2, 2, 2]] 3
      [([some [2, 2, 2]], 3), ([], 1)]).1
  · exact (claim_C2_reader_invariants ⟨8, 0, 4, 5⟩ [some [2, 2, 2]] 3
      [([some [2, 2, 2]], 3), ([], 1)]).2.1
  · exact (claim_C2_reader_invariants ⟨8, 0, 4, 5⟩ [some [2, 2, 2]] 3
      [([some [2, 2, 2]], 3), ([], 1)]).2.2 (by decide)

/-! ### `AddTorrent` across the three adapters -/

theorem qbGetTorrent_present (v : QbitView) (h : String) (t : QbitTorrentInfo)
    (ts : List QbitTorrentInfo) (hp : v.torrents (lowerS h) = t :: ts) :
    qbGetTorrent v h =
      (some (torrentInfoFromQBittorrent t (v.filesOf (lowerS h))),
        [QbitReq.info (lowerS h), QbitReq.filesReq (lowerS h)]) := by
  simp only [qbGetTorrent, hp]

theorem rqbitGetTorrentByID_trace (w : RqbitWorld) (st : RqbitState) (id : Int)
    (kh : String) : (rqbitGetTorrentByID w st id kh).2 = [RqbitReq.getTorrent id] := by
  cases hg : w.getResp id <;> simp [rqbitGetTorrentByID, hg]

theorem rqbitGetTorrentByID_engineID (w : RqbitWorld) (st : RqbitState) (id : Int)
    (kh : String) (info : TorrentInfo) (st2 : RqbitState)
    (h : (rqbitGetTorrentByID w st id kh).1 = .ok (info, st2)) :
    info.engineID = intRepr id := by
  cases hg : w.getResp id with
  | none => simp [rqbitGetTorrentByID, hg] at h
  | some detail =>
    simp only [rqbitGetTorrentByID, hg, Except.ok.injEq, Prod.mk.injEq] at h
    rw [← h.1]

theorem lookupHash_cons (k : String) (v : Int) (m : List (String × Int)) (h : String) :
    lookupHash ((k, v) :: m) h = if k = h then some v else lookupHash m h := by
  by_cases hk : k = h <;> simp [lookupHash, List.find?, hk]

theorem lookupHash_insert (st : RqbitState) (h : String) (id : Int) :
    lookupHash (rqbitInsert st h id).hashToID h = some id := by
  simp [rqbitInsert, lookupHash_cons]

/-- After `getTorrentByID`, a mapping entry `h ↦ id` present before the call
is still found (with the same `id`): the call only prepends entries of the
form `(_, id)`. -/
theorem rqbitGetTorrentByID_keeps (w : RqbitWorld) (st : RqbitState) (id : Int)
    (kh h : String) (info : TorrentInfo) (st2 : RqbitState)
    (hok : (rqbitGetTorrentByID w st id kh).1 = .ok (info, st2))
    (hl : lookupHash st.hashToID h = some id) :
    lookupHash st2.hashToID h = some id := by
  cases hg : w.getResp id with
  | none => simp [rqbitGetTorrentByID, hg] at hok
  | some detail =>
    simp only [rqbitGetTorrentByID, hg, Except.ok.injEq, Prod.mk.injEq] at hok
    rw [← hok.2]
    set h0 := lowerS detail.info_hash with hh0
    by_cases hz : (if h0 = "" then kh else h0) ≠ ""
    · rw [if_pos hz, rqbitInsert]
      show lookupHash ((_, id) :: st.hashToID) h = some id
      rw [lookupHash_cons]
      by_cases he : (if h0 = "" then kh else h0) = h
      · rw [if_pos he]
      · rw [if_neg he]
        exact hl
    · rw [if_neg hz]
      exact hl

/-- C3 (amended), per adapter.
qBittorrent: when the engine already has the torrent, `AddTorrent` returns its
current info and issues only the two read requests — no add.
rqbit: when the adapter's hash↦ID map has the hash (as it does after a prior
successful `AddTorrent` of the same magnet, third conjunct), `AddTorrent`
delegates to `getTorrentByID` — one GET, no add — and the returned `engineID`
is the mapped numeric ID.
TorrServer: `AddTorrent` issues the `add` action on every call (this is what
refutes the original claim) and returns the torrent's current info from the
engine's idempotent add response. -/
theorem claim_C3_idempotent_add (wq : QbitWorld) (wr : RqbitWorld) (rst : RqbitState)
    (wt : TorrServerWorld) (m : String) (id : Int) :
    (ParseInfoHashFromMagnet m ≠ "" →
      ∀ t ts, wq.now.torrents (lowerS (ParseInfoHashFromMagnet m)) = t :: ts →
      qbAddTorrent wq m =
        .ok (torrentInfoFromQBittorrent t (wq.now.filesOf (lowerS (ParseInfoHashFromMagnet m))),
          [QbitReq.info (lowerS (ParseInfoHashFromMagnet m)),
           QbitReq.filesReq (lowerS (ParseInfoHashFromMagnet m))])) ∧
    (ParseInfoHashFromMagnet m ≠ "" →
      lookupHash rst.hashToID (ParseInfoHashFromMagnet m) = some id →
      rqbitAddTorrent wr rst m =
        rqbitGetTorrentByID wr rst id (ParseInfoHashFromMagnet m) ∧
      (rqbitAddTorrent wr rst m).2 = [RqbitReq.getTorrent id] ∧
      (∀ info st2, (rqbitAddTorrent wr rst m).1 = .ok (info, st2) →
        info.engineID = intRepr id)) ∧
    (ParseInfoHashFromMagnet m ≠ "" →
      lookupHash rst.hashToID (ParseInfoHashFromMagnet m) = none →
      (∀ ar d, wr.addResp m = some ar → ar.details = some d →
        d.info_hash = "" ∨ lowerS d.info_hash = ParseInfoHashFromMagnet m) →
      ∀ info st2, (rqbitAddTorrent wr rst m).1 = .ok (info, st2) →
        ∃ ar, wr.addResp m = some ar ∧
          lookupHash st2.hashToID (ParseInfoHashFromMagnet m) = some ar.id) ∧
    ((tsAddTorrent wt m).2 = [TsReq.mk "add" m ""] ∧
      ∀ ts, wt.addResp m = some ts →
        (tsAddTorrent wt m).1 = .ok (torrentInfoFromTorrServer ts)) := by
  refine ⟨?_, ?_, ?_, ?_, ?_⟩
  · intro hh t ts hp
    have hg := qbGetTorrent_present wq.now (ParseInfoHashFromMagnet m) t ts hp
    simp only [qbAddTorrent, hg, hh, if_false]
  · intro hh hl
    have key : (if ParseInfoHashFromMagnet m = "" then none
        else lookupHash rst.hashToID (ParseInfoHashFromMagnet m)) = some id := by
      rw [if_neg hh, hl]
    have heq : rqbitAddTorrent wr rst m =
        rqbitGetTorrentByID wr rst id (ParseInfoHashFromMagnet m) := by
      simp only [rqbitAddTorrent, key]
    refine ⟨heq, ?_, ?_⟩
    · rw [heq, rqbitGetTorrentByID_trace]
    · intro info st2 hok
      rw [heq] at hok
      exact rqbitGetTorrentByID_engineID wr rst id _ info st2 hok
  · intro hh hl hsane info st2 hok
    simp only [rqbitAddTorrent] at hok
    generalize hdef : ParseInfoHashFromMagnet m = h at hh hl hsane hok
    rw [if_neg hh, hl] at hok
    cases har : wr.addResp m with
    | none => rw [har] at hok; simp at hok
    | some ar =>
      rw [har] at hok
      simp only [] at hok
      refine ⟨ar, rfl, ?_⟩
      have hresp : (match ar.details with
          | some d => if d.info_hash ≠ "" then lowerS d.info_hash else h
          | none => h) = h := by
        cases hd : ar.details with
        | none => rfl
        | some d =>
          rcases hsane ar d har hd with hz | hz
          · simp [hz]
          · by_cases hne : d.info_hash ≠ "" <;> simp [hne, hz]
      rw [hresp] at hok
      cases hd : ar.details with
      | none =>
        rw [hd] at hok
        simp only [] at hok
        rw [rqbitAddFetchDetails] at hok
        rw [if_pos hh] at hok
        cases hget : rqbitGetTorrentByID wr (rqbitInsert rst h ar.id) ar.id h with
        | mk res reqs =>
          cases res with
          | error e => rw [hget] at hok; simp at hok
          | ok p =>
            rw [hget] at hok
            simp only [Except.ok.injEq, Prod.mk.injEq] at hok
            have hkeep := rqbitGetTorrentByID_keeps wr (rqbitInsert rst h ar.id) ar.id h h
              p.1 p.2 (by rw [hget]) (lookupHash_insert rst h ar.id)
            rw [← hok.2]
            have : ¬ (h = "" ∧ p.1.infoHash ≠ "") := fun hc => hh hc.1
            rw [if_neg this]
            exact hkeep
      | some d =>
        rw [hd] at hok
        simp only [] at hok
        by_cases hbr : h ≠ "" ∧ d.name ≠ ""
        · rw [if_pos hbr] at hok
          simp only [Except.ok.injEq, Prod.mk.injEq] at hok
          rw [← hok.2]
          exact lookupHash_insert rst h ar.id
        · rw [if_neg hbr] at hok
          rw [rqbitAddFetchDetails] at hok
          rw [if_pos hh] at hok
          cases hget : rqbitGetTorrentByID wr (rqbitInsert rst h ar.id) ar.id h with
          | mk res reqs =>
            cases res with
            | error e => rw [hget] at hok; simp at hok
            | ok p =>
              rw [hget] at hok
              simp only [Except.ok.injEq, Prod.mk.injEq] at hok
              have hkeep := rqbitGetTorrentByID_keeps wr (rqbitInsert rst h ar.id) ar.id h h
                p.1 p.2 (by rw [hget]) (lookupHash_insert rst h ar.id)
              rw [← hok.2]
              have : ¬ (h = "" ∧ p.1.infoHash ≠ "") := fun hc => hh hc.1
              rw [if_neg this]
              exact hkeep
  · cases hw : wt.addResp m <;> simp [tsAddTorrent, hw]
  · intro ts hts
    simp [tsAddTorrent, hts]

/-- C3 counterexample: a TorrServer backend that already holds the torrent
(its idempotent `add` action returns the existing torrent's info), yet
`TorrServerAdapter.AddTorrent` still issues the add/registration request —
there is no presence check in this adapter, refuting the claim for "every
engine adapter". -/
theorem claim_C3_counterexample :
    (tsAddTorrent ⟨fun _ => some ⟨"ABC", "Movie", []⟩⟩ "magnet:?xt=urn:btih:ABC").2 =
      [TsReq.mk "add" "magnet:?xt=urn:btih:ABC" ""] ∧
    TsReq.mk "add" "magnet:?xt=urn:btih:ABC" "" ∈
      (tsAddTorrent ⟨fun _ => some ⟨"ABC", "Movie", []⟩⟩ "magnet:?xt=urn:btih:ABC").2 := by
  constructor
  · rfl
  · rw [show (tsAddTorrent ⟨fun _ => some ⟨"ABC", "Movie", []⟩⟩ "magnet:?xt=urn:btih:ABC").2 =
      [TsReq.mk "add" "magnet:?xt=urn:btih:ABC" ""] from rfl]
    exact List.mem_singleton.mpr rfl

/-- Witness for C3 at concrete worlds. -/
theorem claim_C3_witness :
    (qbAddTorrent
        ⟨⟨fun h => if h = "abc" then [⟨"ABC", "Movie", 100, 0, 0, 0, 0, 0, 0⟩] else [],
          fun _ => [⟨0, "Movie.mkv", 100⟩]⟩,
         fun _ => true, fun _ => []⟩
        "magnet:?xt=urn:btih:ABC" =
      .ok (torrentInfoFromQBittorrent ⟨"ABC", "Movie", 100, 0, 0, 0, 0, 0, 0⟩
            [⟨0, "Movie.mkv", 100⟩],
          [QbitReq.info "abc", QbitReq.filesReq "abc"])) ∧
    ((rqbitAddTorrent
        ⟨fun _ => none, fun i => if i = 7 then some ⟨"ABC", "Movie", []⟩ else none⟩
        ⟨[("abc", 7)], [(7, "abc")]⟩ "magnet:?xt=urn:btih:ABC").2 =
      [RqbitReq.getTorrent 7]) ∧
    (∃ ar, (⟨fun _ => some ⟨5, some ⟨"ABC", "Movie", [⟨"f", 10⟩]⟩⟩,
          fun _ => none⟩ : RqbitWorld).addResp "magnet:?xt=urn:btih:ABC" = some ar ∧
        lookupHash (rqbitInsert ⟨[], []⟩ "abc" 5).hashToID "abc" = some ar.id) ∧
    ((tsAddTorrent ⟨fun _ => some ⟨"DEF", "Show", []⟩⟩ "magnet:?xt=urn:btih:DEF").2 =
      [TsReq.mk "add" "magnet:?xt=urn:btih:DEF" ""]) := by
  refine ⟨?_, ?_, ?_, ?_⟩
  · have := (claim_C3_idempotent_add
        ⟨⟨fun h => if h = "abc" then [⟨"ABC", "Movie", 100, 0, 0, 0, 0, 0, 0⟩] else [],
          fun _ => [⟨0, "Movie.mkv", 100⟩]⟩,
         fun _ => true, fun _ => []⟩
        ⟨fun _ => none, fun _ => none⟩ ⟨[], []⟩ ⟨fun _ => none⟩
        "magnet:?xt=urn:btih:ABC" 0).1 (by decide)
        ⟨"ABC", "Movie", 100, 0, 0, 0, 0, 0, 0⟩ [] (by decide)
    exact this
  · exact ((claim_C3_idempotent_add ⟨⟨fun _ => [], fun _ => []⟩, fun _ => true, fun _ => []⟩
        ⟨fun _ => none, fun i => if i = 7 then some ⟨"ABC", "Movie", []⟩ else none⟩
        ⟨[("abc", 7)], [(7, "abc")]⟩ ⟨fun _ => none⟩
        "magnet:?xt=urn:btih:ABC" 7).2.1 (by decide) (by decide)).2.1
  · exact (claim_C3_idempotent_add ⟨⟨fun _ => [], fun _ => []⟩, fun _ => true, fun _ => []⟩
        ⟨fun _ => some ⟨5, some ⟨"ABC", "Movie", [⟨"f", 10⟩]⟩⟩, fun _ => none⟩
        ⟨[], []⟩ ⟨fun _ => none⟩ "magnet:?xt=urn:btih:ABC" 0).2.2.1 (by decide) (by decide)
        (by intro ar d har hd
            rw [Option.some.injEq] at har
            subst har
            simp only [Option.some.injEq] at hd
            subst hd
            right
            decide)
        { infoHash := "abc", name := "Movie", files := idxFiles 0 [⟨"f", 10⟩],
          engineID := intRepr 5, totalSize := 0, stats := none }
        (rqbitInsert ⟨[], []⟩ "abc" 5) (by rfl)
  · exact (claim_C3_idempotent_add ⟨⟨fun _ => [], fun _ => []⟩, fun _ => true, fun _ => []⟩
        ⟨fun _ => none, fun _ => none⟩ ⟨[], []⟩ ⟨fun _ => some ⟨"DEF", "Show", []⟩⟩
        "magnet:?xt=urn:btih:DEF" 0).2.2.2.1

/-! ### rqbit ListTorrents JSON shapes -/

/-- C5.  The bare-array and wrapper-object shapes parse to the contained
torrents and refresh the map, but the third shape — an object keyed by
numeric-ID strings, e.g. `{"0": {...}}` — never reaches the map branch: it
is swallowed by the wrapper-struct decode (unknown keys ignored, `torrents`
missing → zero value), so `ListTorrents` returns an EMPTY torrent list and
leaves the map untouched, contradicting both the claim and the source's own
comment that introduces the third try. -/
theorem claim_C5_list_shapes :
    (rqbitDecodeListBody ⟨[], []⟩
        (.arr [.obj [("info_hash", .str "ABC"), ("name", .str "Movie"),
          ("files", .arr [.obj [("name", .str "f"), ("length", .num 10)]])]]) =
      .ok ([⟨"ABC", "Movie", [⟨"f", 10⟩]⟩], ⟨[("abc", 0)], [(0, "abc")]⟩)) ∧
    (rqbitDecodeListBody ⟨[], []⟩
        (.obj [("torrents", .arr [.obj [("info_hash", .str "ABC"), ("name", .str "Movie"),
          ("files", .arr [.obj [("name", .str "f"), ("length", .num 10)]])]])]) =
      .ok ([⟨"ABC", "Movie", [⟨"f", 10⟩]⟩], ⟨[("abc", 0)], [(0, "abc")]⟩)) ∧
    (rqbitDecodeListBody ⟨[], []⟩
        (.obj [("0", .obj [("info_hash", .str "ABC"), ("name", .str "Movie"),
          ("files", .arr [.obj [("name", .str "f"), ("length", .num 10)]])])]) =
      .ok ([], ⟨[], []⟩)) ∧
    (rqbitListTorrents ⟨[], []⟩
        (.obj [("0", .obj [("info_hash", .str "ABC"), ("name", .str "Movie"),
          ("files", .arr [.obj [("name", .str "f"), ("length", .num 10)]])])]) =
      .ok ([], ⟨[], []⟩)) := by
  refine ⟨?_, ?_, ?_, ?_⟩ <;> rfl

/-! ### Cache cleanup invariants -/

theorem sumSize_cons (e : AccessEntry) (l : List AccessEntry) :
    sumSize (e :: l) = e.size + sumSize l := by
  simp [sumSize]

theorem evictCount_sum : ∀ (l : List AccessEntry) (maxB : Int), 0 ≤ maxB →
    sumSize (l.drop (evictCount l (sumSize l) maxB)) ≤ maxB := by
  intro l
  induction l with
  | nil =>
    intro maxB hB
    simpa [evictCount, sumSize] using hB
  | cons e rest ih =>
    intro maxB hB
    rw [evictCount]
    by_cases hgt : sumSize (e :: rest) > maxB
    · rw [if_pos hgt]
      have hs : sumSize (e :: rest) - e.size = sumSize rest := by
        rw [sumSize_cons]; ring
      rw [hs, List.drop_succ_cons]
      exact ih maxB hB
    · rw [if_neg hgt, List.drop_zero]
      omega

theorem sorted_take_drop {r : AccessEntry → AccessEntry → Prop} (l : List AccessEntry)
    (k : Nat) (hs : List.Pairwise r l) :
    ∀ x ∈ l.take k, ∀ y ∈ l.drop k, r x y := by
  have hsplit : l = l.take k ++ l.drop k := (List.take_append_drop k l).symm
  rw [hsplit] at hs
  exact fun x hx y hy => (List.pairwise_append.mp hs).2.2 x hx y hy

/-- C6.  After `RunCleanup` with every removal succeeding: no kept entry is
older than `now − maxAgeDays`; the kept entries' total size fits under
`CacheSizeGB`; and every size-evicted entry is at least as old as every kept
entry (oldest-lastAccessed-first eviction). -/
theorem claim_C6_cache_cleanup (log : List AccessEntry) (now : Int)
    (maxAgeDays maxSizeGB : Nat) :
    (∀ e ∈ (RunCleanup log now maxAgeDays maxSizeGB).kept,
      ¬ (e.lastAccessed < now - (maxAgeDays : Int) * 24 * 3600)) ∧
    sumSize (RunCleanup log now maxAgeDays maxSizeGB).kept ≤
      (maxSizeGB : Int) * 1024 * 1024 * 1024 ∧
    (∀ x ∈ (RunCleanup log now maxAgeDays maxSizeGB).sizeEvicted,
      ∀ y ∈ (RunCleanup log now maxAgeDays maxSizeGB).kept,
        x.lastAccessed ≤ y.lastAccessed) := by
  refine ⟨?_, ?_, ?_⟩
  · intro e he
    simp only [RunCleanup] at he
    have hmem := List.drop_subset _ _ he
    have := (List.mem_filter.mp hmem).2
    simpa using this
  · simp only [RunCleanup]
    exact evictCount_sum _ _ (by positivity)
  · intro x hx y hy
    simp only [RunCleanup] at hx hy
    have hsorted : List.Pairwise accessLE (sortByAccess log) :=
      List.sorted_insertionSort accessLE log
    have hfil : List.Pairwise accessLE
        ((sortByAccess log).filter fun e =>
          ¬ (e.lastAccessed < now - (maxAgeDays : Int) * 24 * 3600)) :=
      List.Pairwise.filter _ hsorted
    exact sorted_take_drop _ _ hfil x hx y hy

/-- Witness for C6 at a concrete log: three entries of 30 bytes each, one
age-expired, cap 0 GB forcing size eviction of the rest. -/
theorem claim_C6_witness :
    (∀ e ∈ (RunCleanup
        [⟨"a", "A", 100, 30⟩, ⟨"b", "B", 2000000, 30⟩, ⟨"c", "C", 3000000, 30⟩]
        3000000 7 0).kept,
      ¬ (e.lastAccessed < 3000000 - (7 : Int) * 24 * 3600)) ∧
    sumSize (RunCleanup
        [⟨"a", "A", 100, 30⟩, ⟨"b", "B", 2000000, 30⟩, ⟨"c", "C", 3000000, 30⟩]
        3000000 7 0).kept ≤ (0 : Int) * 1024 * 1024 * 1024 ∧
    (∀ x ∈ (RunCleanup
        [⟨"a", "A", 100, 30⟩, ⟨"b", "B", 2000000, 30⟩, ⟨"c", "C", 3000000, 30⟩]
        3000000 7 0).sizeEvicted,
      ∀ y ∈ (RunCleanup
        [⟨"a", "A", 100, 30⟩, ⟨"b", "B", 2000000, 30⟩, ⟨"c", "C", 3000000, 30⟩]
        3000000 7 0).kept, x.lastAccessed ≤ y.lastAccessed) := by
  have h := claim_C6_cache_cleanup
    [⟨"a", "A", 100, 30⟩, ⟨"b", "B", 2000000, 30⟩, ⟨"c", "C", 3000000, 30⟩] 3000000 7 0
  exact ⟨h.1, by simpa using h.2.1, h.2.2⟩

/-! ### Stream proxy hop-by-hop filtering -/

example : canonicalHeaderKey "connection" = "Connection" := by decide

example : canonicalHeaderKey "x-custom-header" = "X-Custom-Header" := by decide

example : canonicalHeaderKey "weird key" = "weird key" := by decide

/-- C7.  The proxy's success path sets the client status to the engine's
`statusCode`, and a `(key, value)` pair is forwarded to the client exactly
when the engine response holds `value` under `key` and the canonical form of
`key` is outside the hop-by-hop set — so {Connection, Keep-Alive,
Transfer-Encoding, Te, Trailer, Upgrade} (under canonicalisation) are
stripped and every other header, arbitrary custom keys included, passes
through unchanged. -/
theorem claim_C7_hop_by_hop (resp : StreamResponseModel) (k v : String) :
    (handleStreamSuccess resp).status = resp.statusCode ∧
    ((k, v) ∈ (handleStreamSuccess resp).setOps ↔
      (∃ vs, (k, vs) ∈ resp.header ∧ v ∈ vs) ∧
        canonicalHeaderKey k ∉ hopByHopHeaders) := by
  refine ⟨rfl, ?_⟩
  show (k, v) ∈ forwardSetOps resp.header ↔ _
  rw [forwardSetOps, List.mem_flatMap]
  constructor
  · rintro ⟨kv, hkv, hmem⟩
    by_cases hhop : hopByHopHeaders.contains (canonicalHeaderKey kv.1)
    · rw [if_pos hhop] at hmem
      exact absurd hmem (List.not_mem_nil _)
    · rw [if_neg hhop] at hmem
      obtain ⟨v0, hv0, heq⟩ := List.mem_map.mp hmem
      obtain ⟨hk, hv⟩ := Prod.mk.injEq .. ▸ heq
      refine ⟨⟨kv.2, ?_, hv ▸ hv0⟩, ?_⟩
      · rw [← hk]
        exact hkv
      · rw [← hk]
        simpa [List.contains, List.elem_eq_mem] using hhop
  · rintro ⟨⟨vs, hvs, hv⟩, hnot⟩
    refine ⟨(k, vs), hvs, ?_⟩
    rw [if_neg (by simpa [List.contains, List.elem_eq_mem] using hnot)]
    exact List.mem_map.mpr ⟨v, hv, rfl⟩

/-- Witness for C7 at a concrete response carrying every hop-by-hop header
plus a custom one. -/
theorem claim_C7_witness :
    (handleStreamSuccess ⟨206, 100, "video/mp4",
        [("Connection", ["keep-alive"]), ("Keep-Alive", ["timeout=5"]),
         ("Transfer-Encoding", ["chunked"]), ("Te", ["trailers"]),
         ("Trailer", ["Expires"]), ("Upgrade", ["h2c"]),
         ("X-Custom", ["a"]), ("Content-Range", ["bytes 0-99/100"])]⟩).status = 206 ∧
    (("X-Custom", "a") ∈ (handleStreamSuccess ⟨206, 100, "video/mp4",
        [("Connection", ["keep-alive"]), ("Keep-Alive", ["timeout=5"]),
         ("Transfer-Encoding", ["chunked"]), ("Te", ["trailers"]),
         ("Trailer", ["Expires"]), ("Upgrade", ["h2c"]),
         ("X-Custom", ["a"]), ("Content-Range", ["bytes 0-99/100"])]⟩).setOps ↔
      (∃ vs, ("X-Custom", vs) ∈
          [("Connection", ["keep-alive"]), ("Keep-Alive", ["timeout=5"]),
           ("Transfer-Encoding", ["chunked"]), ("Te", ["trailers"]),
           ("Trailer", ["Expires"]), ("Upgrade", ["h2c"]),
           ("X-Custom", ["a"]), ("Content-Range", ["bytes 0-99/100"])] ∧ "a" ∈ vs) ∧
        canonicalHeaderKey "X-Custom" ∉ hopByHopHeaders) :=
  ⟨(claim_C7_hop_by_hop ⟨206, 100, "video/mp4",
      [("Connection", ["keep-alive"]), ("Keep-Alive", ["timeout=5"]),
       ("Transfer-Encoding", ["chunked"]), ("Te", ["trailers"]),
       ("Trailer", ["Expires"]), ("Upgrade", ["h2c"]),
       ("X-Custom", ["a"]), ("Content-Range", ["bytes 0-99/100"])]⟩ "X-Custom" "a").1,
   (claim_C7_hop_by_hop ⟨206, 100, "video/mp4",
      [("Connection", ["keep-alive"]), ("Keep-Alive", ["timeout=5"]),
       ("Transfer-Encoding", ["chunked"]), ("Te", ["trailers"]),
       ("Trailer", ["Expires"]), ("Upgrade", ["h2c"]),
       ("X-Custom", ["a"]), ("Content-Range", ["bytes 0-99/100"])]⟩ "X-Custom" "a").2⟩

/-! ### Relay producer when disconnected -/

/-- C8.  When no browser poll arrived within the last 10 seconds, `Fetch`
returns the relay-disconnected error with the state unchanged — no pending
entry, no response channel, no ID consumed — and the outcome is the same for
every timeout and every would-be delivery, i.e. it never waits. -/
theorem claim_C8_relay_disconnected (s : RelayState) (url : String) (t1 t2 : Nat)
    (now : Int) (d1 d2 : Option RelayFetchResponse)
    (h : relayConnected s now = false) :
    relayFetch s url t1 now d1 = (.disconnected, s) ∧
    relayFetch s url t1 now d1 = relayFetch s url t2 now d2 := by
  constructor
  · rw [relayFetch, if_pos h]
  · rw [relayFetch, if_pos h, relayFetch, if_pos h]

/-- Witness for C8: a fresh relay (no poll ever) refuses a fetch without
touching the queue. -/
theorem claim_C8_witness :
    relayFetch ⟨[], [], 0, 0⟩ "http://u" 2000 100 none =
      (.disconnected, ⟨[], [], 0, 0⟩) ∧
    relayFetch ⟨[], [], 0, 0⟩ "http://u" 2000 100 none =
      relayFetch ⟨[], [], 0, 0⟩ "http://u" 900000 100 (some ⟨200, "body", ""⟩) :=
  claim_C8_relay_disconnected ⟨[], [], 0, 0⟩ "http://u" 2000 900000 100 none
    (some ⟨200, "body", ""⟩) (by decide)

/-! ### Wrapper empty sentinels -/

/-- C9.  For a registered addon: a failed catalog fetch answers 200 with
`{"metas":[]}`; a failed meta fetch answers 200 with `{"meta":{}}`; and on
the stream route both a failed fetch and an unparsable body answer 200 with
`{"streams":[]}` — never a 5xx. -/
theorem claim_C9_empty_sentinels (externalBase : String) :
    handleCatalog true none = (200, .raw "\x7b\"metas\":[]\x7d") ∧
    handleMeta true none = (200, .raw "\x7b\"meta\":\x7b\x7d\x7d") ∧
    handleStream true .fetchError externalBase = (200, .raw "\x7b\"streams\":[]\x7d") ∧
    handleStream true .unparsable externalBase = (200, .raw "\x7b\"streams\":[]\x7d") :=
  ⟨rfl, rfl, rfl, rfl⟩

/-- Witness for C9 at a concrete external base. -/
theorem claim_C9_witness :
    handleCatalog true none = (200, .raw "\x7b\"metas\":[]\x7d") ∧
    handleStream true .fetchError "http://bridge" =
      (200, .raw "\x7b\"streams\":[]\x7d") :=
  ⟨(claim_C9_empty_sentinels "http://bridge").1,
   (claim_C9_empty_sentinels "http://bridge").2.2.1⟩

end Bridge
